import Mathlib

/-!
Verification development for the Batonics order-book engine and snapshot
fan-out pipeline.  The definitions below are a shallow embedding of the
Rust sources (`src/order_book.rs`, `src/main.rs`, `src/storage.rs`,
`src/snapshot.rs`); `HashMap` and `BTreeMap` are embedded as association
lists with unique keys, `VecDeque` as `List` (front first), and panicking
code paths (`unwrap`, `assert!`) as `Option` with `none` for a panic.
-/

namespace Batonics

/-- Order side as in `dbn::enums::Side`; `N` is `Side::None`. -/
inductive Side where
  | Bid
  | Ask
  | N
  deriving DecidableEq

/-- Event action as in `dbn::enums::Action`; `N` is `Action::None`. -/
inductive Action where
  | Add
  | Modify
  | Cancel
  | Trade
  | Fill
  | N
  | Clear
  deriving DecidableEq

/-- The fields of `dbn::record::MboMsg` that the book logic reads.
`is_tob` embeds `flags.is_tob()`.  Carry-through fields (`ts_event`,
`sequence`, `channel_id`, ...) are not consulted by `Book` and are
omitted. -/
structure MboMsg where
  order_id : Nat
  price : Int
  size : Nat
  side : Side
  action : Action
  is_tob : Bool
  deriving DecidableEq

/-- `dbn::UNDEF_PRICE = i64::MAX`. -/
def UNDEF_PRICE : Int := 9223372036854775807

/-- A price level: `type Level = VecDeque<MboMsg>` (front of the queue first). -/
abbrev Level := List MboMsg

/-- First-match lookup in an association list (embedding of map `get`). -/
def lookupA {α β : Type} [DecidableEq α] : List (α × β) → α → Option β
  | [], _ => none
  | (k, v) :: rest, a => if k = a then some v else lookupA rest a

/-- Map `insert`: replace the value at an existing key, else append the binding. -/
def insertA {α β : Type} [DecidableEq α] : List (α × β) → α → β → List (α × β)
  | [], a, b => [(a, b)]
  | (k, v) :: rest, a, b => if k = a then (a, b) :: rest else (k, v) :: insertA rest a b

/-- Map `remove`: drop the first binding with the given key. -/
def eraseA {α β : Type} [DecidableEq α] : List (α × β) → α → List (α × β)
  | [], _ => []
  | (k, v) :: rest, a => if k = a then rest else (k, v) :: eraseA rest a

/-- The keys of an association list. -/
def keysA {α β : Type} (m : List (α × β)) : List α := m.map Prod.fst

/-- Number of orders in a level with the given `order_id`. -/
def countId : Level → Nat → Nat
  | [], _ => 0
  | o :: rest, oid => (if o.order_id = oid then 1 else 0) + countId rest oid

/-- Embedding of `level.iter().position(|o| o.order_id == oid)` together with
the element at the found index: splits a level into the orders strictly before
the first order carrying `oid`, that order, and the rest. -/
def splitAtId (oid : Nat) : Level → Option (Level × MboMsg × Level)
  | [] => none
  | o :: rest =>
    if o.order_id = oid then some ([], o, rest)
    else (splitAtId oid rest).map (fun x => (o :: x.1, x.2.1, x.2.2))

/-- The per-publisher book, as in `struct Book`. -/
structure Book where
  orders_by_id : List (Nat × Side × Int)
  offers : List (Int × Level)
  bids : List (Int × Level)
  deriving DecidableEq

/-- Aggregated view of one price level, as in `struct PriceLevel`. -/
structure PriceLevel where
  price : Int
  size : Nat
  count : Nat
  deriving DecidableEq

/-- `PriceLevel::new`: fold a level; every order adds its size, non-TOB
orders add to the count. -/
def PriceLevel.new (p : Int) (orders : Level) : PriceLevel :=
  orders.foldl
    (fun lvl o =>
      { lvl with
        size := lvl.size + o.size
        count := if o.is_tob then lvl.count else lvl.count + 1 })
    { price := p, size := 0, count := 0 }

def Book.empty : Book := { orders_by_id := [], offers := [], bids := [] }

/-- `Book::side_levels` / `side_levels_mut`.  The source panics on
`Side::None`; every reachable call site below guards the side explicitly,
so the `N` case here is never consulted with a meaningful result. -/
def Book.levels (b : Book) : Side → List (Int × Level)
  | Side.Ask => b.offers
  | Side.Bid => b.bids
  | Side.N => []

/-- Write back one side's level map. -/
def Book.withLevels (b : Book) : Side → List (Int × Level) → Book
  | Side.Ask, m => { b with offers := m }
  | Side.Bid, m => { b with bids := m }
  | Side.N, _ => b

/-- The level resting at `(side, price)`, if any. -/
def Book.levelAt (b : Book) (s : Side) (p : Int) : Option Level :=
  lookupA (b.levels s) p

/-- `Book::get_or_insert_level` followed by `push_back`. -/
def pushLevel (m : List (Int × Level)) (p : Int) (e : MboMsg) : List (Int × Level) :=
  insertA m p ((lookupA m p).getD [] ++ [e])

/-- `Book::add`.  `none` models a panic: `Side::None`, a non-TOB add at
`UNDEF_PRICE`, or a duplicate `order_id` (the `assert!`s in the source). -/
def Book.add (b : Book) (e : MboMsg) : Option (Book × Bool) :=
  if e.side = Side.N then none
  else if e.is_tob then
    some (b.withLevels e.side (if e.price = UNDEF_PRICE then [] else [(e.price, [e])]), true)
  else if e.price = UNDEF_PRICE then none
  else if (lookupA b.orders_by_id e.order_id).isSome then none
  else
    let b1 := { b with orders_by_id := insertA b.orders_by_id e.order_id (e.side, e.price) }
    some (b1.withLevels e.side (pushLevel (b1.levels e.side) e.price e), true)

/-- `Book::cancel`.  `none` models the panics (`Side::None`, or the
`assert!(existing.size >= mbo.size)`). -/
def Book.cancel (b : Book) (e : MboMsg) : Option (Book × Bool) :=
  if e.side = Side.N then none
  else
    match lookupA (b.levels e.side) e.price with
    | none => some (b, false)
    | some level =>
      match splitAtId e.order_id level with
      | none => some (b, false)
      | some (pre, o, post) =>
        if o.size < e.size then none
        else if o.size - e.size = 0 then
          let rem := pre ++ post
          let m1 := if rem = [] then eraseA (b.levels e.side) e.price
                    else insertA (b.levels e.side) e.price rem
          some ({ b.withLevels e.side m1 with
                    orders_by_id := eraseA b.orders_by_id e.order_id }, true)
        else
          some (b.withLevels e.side
                  (insertA (b.levels e.side) e.price
                    (pre ++ { o with size := o.size - e.size } :: post)), true)

/-- `Book::modify`.  The stale-entry branches re-dispatch to `add` exactly as
the source does; `none` models the panics (`side_levels_mut` on `Side::None`
at the points where the source actually reaches it, and the asserts inside
`add`). -/
def Book.modify (b : Book) (e : MboMsg) : Option (Book × Bool) :=
  match lookupA b.orders_by_id e.order_id with
  | none => b.add e
  | some (prevSide, prevPrice) =>
    if prevSide = Side.N then none
    else
      match lookupA (b.levels prevSide) prevPrice with
      | none => Book.add { b with orders_by_id := eraseA b.orders_by_id e.order_id } e
      | some prevLevel =>
        match splitAtId e.order_id prevLevel with
        | none => Book.add { b with orders_by_id := eraseA b.orders_by_id e.order_id } e
        | some (pre, o, post) =>
          if prevPrice ≠ e.price then
            if e.side = Side.N then none
            else
              let rem := pre ++ post
              let m1 := if rem = [] then eraseA (b.levels prevSide) prevPrice
                        else insertA (b.levels prevSide) prevPrice rem
              let b1 := b.withLevels prevSide m1
              let b2 := { b1 with
                            orders_by_id := insertA b1.orders_by_id e.order_id (e.side, e.price) }
              some (b2.withLevels e.side (pushLevel (b2.levels e.side) e.price e), true)
          else
            if o.size < e.size then
              if e.side = Side.N then none
              else
                let b1 := b.withLevels prevSide
                            (insertA (b.levels prevSide) prevPrice (pre ++ post))
                some (b1.withLevels e.side (pushLevel (b1.levels e.side) e.price e), true)
            else
              some (b.withLevels prevSide
                      (insertA (b.levels prevSide) prevPrice
                        (pre ++ { o with size := e.size } :: post)), true)

/-- `Book::apply`: dispatch on the action; `Clear` empties the book. -/
def Book.apply (b : Book) (e : MboMsg) : Option (Book × Bool) :=
  match e.action with
  | Action.Modify => b.modify e
  | Action.Trade => some (b, true)
  | Action.Fill => some (b, true)
  | Action.N => some (b, true)
  | Action.Cancel => b.cancel e
  | Action.Add => b.add e
  | Action.Clear => some (Book.empty, true)

/-- `Book::total_orders`. -/
def Book.total_orders (b : Book) : Nat := b.orders_by_id.length

/-- The entry with the greatest key (embedding of `BTreeMap` iteration
reversed, `nth(0)`). -/
def maxEntry : List (Int × Level) → Option (Int × Level)
  | [] => none
  | (p, l) :: rest =>
    match maxEntry rest with
    | none => some (p, l)
    | some (q, m) => if q < p then some (p, l) else some (q, m)

/-- The entry with the least key (embedding of `BTreeMap` iteration, `nth(0)`). -/
def minEntry : List (Int × Level) → Option (Int × Level)
  | [] => none
  | (p, l) :: rest =>
    match minEntry rest with
    | none => some (p, l)
    | some (q, m) => if p < q then some (p, l) else some (q, m)

/-- `Book::bid_level(0)`: highest bid, aggregated. -/
def Book.bidLevel0 (b : Book) : Option PriceLevel :=
  (maxEntry b.bids).map (fun x => PriceLevel.new x.1 x.2)

/-- `Book::ask_level(0)`: lowest ask, aggregated. -/
def Book.askLevel0 (b : Book) : Option PriceLevel :=
  (minEntry b.offers).map (fun x => PriceLevel.new x.1 x.2)

/-- `Book::bbo`. -/
def Book.bbo (b : Book) : Option PriceLevel × Option PriceLevel :=
  (b.bidLevel0, b.askLevel0)

/-- `Book::queue_pos`: cumulative size resting ahead of the order. -/
def Book.queue_pos (b : Book) (oid : Nat) : Option Nat :=
  match lookupA b.orders_by_id oid with
  | none => none
  | some (s, p) =>
    match lookupA (b.levels s) p with
    | none => none
    | some level =>
      some ((level.takeWhile (fun o => o.order_id != oid)).foldl (fun acc o => acc + o.size) 0)

/-- One step of the `aggregated_bbo` loop for the bid side (the `match` on
`&mut agg_bid`). -/
def aggStepBid (acc : Option PriceLevel) (bid : PriceLevel) : Option PriceLevel :=
  match acc with
  | none => some bid
  | some ab =>
    if ab.price < bid.price then some bid
    else if bid.price = ab.price then
      some { ab with size := ab.size + bid.size, count := ab.count + bid.count }
    else some ab

/-- One step of the `aggregated_bbo` loop for the ask side. -/
def aggStepAsk (acc : Option PriceLevel) (ask : PriceLevel) : Option PriceLevel :=
  match acc with
  | none => some ask
  | some aa =>
    if ask.price < aa.price then some ask
    else if ask.price = aa.price then
      some { aa with size := aa.size + ask.size, count := aa.count + ask.count }
    else some aa

/-- The `aggregated_bbo` loop over one instrument's `(publisher, book)` list. -/
def aggBooks (books : List (Nat × Book)) : Option PriceLevel × Option PriceLevel :=
  books.foldl
    (fun acc pb =>
      let bbo := pb.2.bbo
      (match bbo.1 with
       | none => acc.1
       | some bid => aggStepBid acc.1 bid,
       match bbo.2 with
       | none => acc.2
       | some ask => aggStepAsk acc.2 ask))
    (none, none)

/-- `struct Market`: books per instrument, publishers in first-seen order. -/
structure Market where
  books : List (Nat × List (Nat × Book))
  deriving DecidableEq

/-- `Market::aggregated_bbo`. -/
def Market.aggregated_bbo (m : Market) (instrument_id : Nat) :
    Option PriceLevel × Option PriceLevel :=
  match lookupA m.books instrument_id with
  | none => (none, none)
  | some books => aggBooks books

/-! ### Invariant machinery for the `orders_by_id` agreement claim -/

/-- Keys of all three internal maps are pairwise distinct (a `HashMap` /
`BTreeMap` cannot hold a key twice). -/
def Book.wfKeys (b : Book) : Prop :=
  (keysA b.orders_by_id).Nodup ∧ ∀ s, (keysA (b.levels s)).Nodup

/-- Every tracked order id rests exactly once at its recorded level. -/
def Book.registeredOnce (b : Book) : Prop :=
  ∀ oid s p, lookupA b.orders_by_id oid = some (s, p) →
    ∃ L, b.levelAt s p = some L ∧ countId L oid = 1

/-- Every order resting in a level is tracked at exactly that `(side, price)`. -/
def Book.allPlaced (b : Book) : Prop :=
  ∀ s p L, b.levelAt s p = some L → ∀ o ∈ L, lookupA b.orders_by_id o.order_id = some (s, p)

/-- The inductive invariant carried across event application. -/
def Book.inv (b : Book) : Prop :=
  b.wfKeys ∧ b.registeredOnce ∧ b.allPlaced

/-- The invariant claimed by the spec: every entry of `orders_by_id` has its
level present with exactly one order carrying the id, and no other level on
either side holds an order with that id. -/
def Book.claimInv (b : Book) : Prop :=
  ∀ oid s p, lookupA b.orders_by_id oid = some (s, p) →
    (∃ L, b.levelAt s p = some L ∧ countId L oid = 1) ∧
    ∀ s' p' L', b.levelAt s' p' = some L' → ¬(s' = s ∧ p' = p) → countId L' oid = 0

/-- A `Modify` that keeps the price of a tracked, resting order but names the
opposite side while increasing its size: the source then moves the order to
the other side's level without updating `orders_by_id`. -/
def Book.modifyBad (b : Book) (e : MboMsg) : Bool :=
  if e.action = Action.Modify then
    match lookupA b.orders_by_id e.order_id with
    | none => false
    | some (s, p) =>
      if p = e.price ∧ s ≠ e.side then
        match lookupA (b.levels s) p with
        | none => false
        | some level =>
          match splitAtId e.order_id level with
          | none => false
          | some (_, o, _) => decide (o.size < e.size)
      else false
  else false

/-- Events for which the invariant is claimed: no TOB flag, and not the
side-switching size-increasing modify described in `Book.modifyBad`. -/
def Book.stepOk (b : Book) (e : MboMsg) : Bool :=
  !e.is_tob && !(b.modifyBad e)

/-- Apply a sequence of events from a starting book; `none` as soon as one
application panics. -/
def applySeq : Book → List MboMsg → Option Book
  | b, [] => some b
  | b, e :: es =>
    match b.apply e with
    | some (b', _) => applySeq b' es
    | none => none

/-- Every event along the (successful) run is admissible per `stepOk`. -/
def seqOk : Book → List MboMsg → Bool
  | _, [] => true
  | b, e :: es =>
    b.stepOk e &&
    match b.apply e with
    | some (b', _) => seqOk b' es
    | none => true

/-! ### Ingest fan-out model (`run_ingest` in `main.rs`) -/

/-- Result of one `try_send` attempt on a bounded crossbeam channel. -/
inductive TryRes where
  | ok
  | full
  | disconnected
  deriving DecidableEq

/-- Result of the bounded-retry send loop for one snapshot and one channel. -/
inductive SendOutcome where
  | sent
  | dropped
  | aborted
  deriving DecidableEq

/-- Observable effects of one ingest iteration: storing into the
latest-snapshot cell, a `try_send` attempt (`ch` = 0 storage, 1 MBP;
`k` = attempt index), or a backoff sleep in milliseconds. -/
inductive Effect where
  | storeLatest (snapId : Nat)
  | tryAttempt (ch : Nat) (snapId : Nat) (k : Nat)
  | sleepMs (ms : Nat)
  deriving DecidableEq

/-- The retry loop body of `run_ingest`: `retries` counts backoffs taken so
far and `rl` the retries still allowed (the source checks `retries < 3`;
here `retries + rl = 3` throughout).  Each full attempt below the budget
sleeps `10 * 2 ^ retries` ms, after the budget the snapshot is dropped; a
disconnected channel aborts. -/
def sendLoopGo (ch snapId : Nat) (oracle : Nat → TryRes) :
    Nat → Nat → Nat → SendOutcome × List Effect
  | retries, rl, attempt =>
    match oracle attempt with
    | TryRes.ok => (SendOutcome.sent, [Effect.tryAttempt ch snapId attempt])
    | TryRes.disconnected => (SendOutcome.aborted, [Effect.tryAttempt ch snapId attempt])
    | TryRes.full =>
      match rl with
      | 0 => (SendOutcome.dropped, [Effect.tryAttempt ch snapId attempt])
      | rl' + 1 =>
        let r := sendLoopGo ch snapId oracle (retries + 1) rl' (attempt + 1)
        (r.1, Effect.tryAttempt ch snapId attempt :: Effect.sleepMs (10 * 2 ^ retries) :: r.2)

/-- The per-channel send loop as entered by `run_ingest` (3 retries allowed). -/
def sendLoop (ch snapId : Nat) (oracle : Nat → TryRes) : SendOutcome × List Effect :=
  sendLoopGo ch snapId oracle 0 3 0

/-- Count of `try_send` attempts in an effect trace. -/
def countAttempts : List Effect → Nat
  | [] => 0
  | Effect.tryAttempt _ _ _ :: rest => 1 + countAttempts rest
  | _ :: rest => countAttempts rest

/-- One applied-event iteration of `run_ingest` after `market.apply`:
if the event was applied, build the snapshot, store it in the
latest-snapshot cell, then run the two channel send loops in order; a
disconnected channel ends ingest (second component `false`).  The effect
trace is returned in program order. -/
def ingestStep (applied : Bool) (snapId : Nat) (o1 o2 : Nat → TryRes) :
    List Effect × Bool :=
  if applied then
    let r1 := sendLoop 0 snapId o1
    if r1.1 = SendOutcome.aborted then (Effect.storeLatest snapId :: r1.2, false)
    else
      let r2 := sendLoop 1 snapId o2
      (Effect.storeLatest snapId :: (r1.2 ++ r2.2), decide (r2.1 ≠ SendOutcome.aborted))
  else ([], true)

/-! ### Storage writer CSV model (`flush_copy` / `escape_csv` in `storage.rs`) -/

/-- A `{price, size, count}` level entry of a snapshot payload. -/
structure LevelEntry where
  price : Int
  size : Nat
  count : Nat
  deriving DecidableEq

/-- The aggregated best bid / best ask of a snapshot payload. -/
structure Bbo where
  best_bid : Option LevelEntry
  best_ask : Option LevelEntry
  deriving DecidableEq

/-- The snapshot payload fields consumed by `flush_copy`. -/
structure Snapshot where
  bbo : Bbo
  symbol : String
  bid_levels : Nat
  ask_levels : Nat
  total_orders : Nat
  deriving DecidableEq

/-- A snapshot record as buffered by the storage writer. -/
structure SnapshotRecord where
  instrument_id : Nat
  ts_event : Int
  payload : Snapshot
  deriving DecidableEq

/-- `str::replace('"', "\"\"")` on the underlying characters. -/
def replaceQuotes : List Char → List Char
  | [] => []
  | c :: cs => if c = '"' then '"' :: '"' :: replaceQuotes cs else c :: replaceQuotes cs

/-- `escape_csv`: wrap in double quotes, doubling internal double quotes. -/
def escape_csv (s : String) : String :=
  "\"" ++ String.mk (replaceQuotes s.data) ++ "\""

/-- The CSV row `flush_copy` formats for one buffered snapshot. -/
def rowOf (snapshot : SnapshotRecord) : String :=
  let payload := snapshot.payload
  let bb := (payload.bbo.best_bid.map (fun b => (b.price, b.size, b.count))).getD (0, 0, 0)
  let ba := (payload.bbo.best_ask.map (fun a => (a.price, a.size, a.count))).getD (0, 0, 0)
  escape_csv payload.symbol ++ "," ++ toString snapshot.ts_event ++ "," ++
    toString bb.1 ++ "," ++ toString bb.2.1 ++ "," ++ toString bb.2.2 ++ "," ++
    toString ba.1 ++ "," ++ toString ba.2.1 ++ "," ++ toString ba.2.2 ++ "," ++
    toString payload.bid_levels ++ "," ++ toString payload.ask_levels ++ "," ++
    toString payload.total_orders ++ "\n"

/-- The `for` loop of `flush_copy`: one `write_all` per buffered snapshot,
in buffer order. -/
def flushRows : List SnapshotRecord → List String
  | [] => []
  | snapshot :: rest => rowOf snapshot :: flushRows rest

/-- Modelled from the claim's words: double every internal `"`. -/
def doubledQuotes (cs : List Char) : List Char :=
  cs.foldr (fun c acc => if c = '"' then c :: c :: acc else c :: acc) []

/-- Modelled from the claim's words: the eleven CSV columns
(symbol, ts_event, best bid triple, best ask triple, bid_levels,
ask_levels, total_orders), a missing side encoded as `(0, 0, 0)`, the
symbol wrapped in double quotes with internal quotes doubled. -/
def specCols (snapshot : SnapshotRecord) : List String :=
  let payload := snapshot.payload
  ["\"" ++ String.mk (doubledQuotes payload.symbol.data) ++ "\"",
   toString snapshot.ts_event] ++
  (match payload.bbo.best_bid with
   | none => ["0", "0", "0"]
   | some b => [toString b.price, toString b.size, toString b.count]) ++
  (match payload.bbo.best_ask with
   | none => ["0", "0", "0"]
   | some a => [toString a.price, toString a.size, toString a.count]) ++
  [toString payload.bid_levels, toString payload.ask_levels, toString payload.total_orders]

/-- Comma-join a column list (claim side). -/
def joinCols : List String → String
  | [] => ""
  | [c] => c
  | c :: cs => c ++ "," ++ joinCols cs

/-- The CSV row the claim describes: eleven comma-separated columns and a
terminating newline. -/
def specRow (snapshot : SnapshotRecord) : String :=
  joinCols (specCols snapshot) ++ "\n"

/-! ### Spec-side aggregation (modelled from the claim's words) -/

/-- One bid-side step of the aggregation loop, taking an optional
publisher best bid. -/
def mergeBid (acc : Option PriceLevel) : Option PriceLevel → Option PriceLevel
  | none => acc
  | some bid => aggStepBid acc bid

/-- One ask-side step of the aggregation loop, taking an optional
publisher best ask. -/
def mergeAsk (acc : Option PriceLevel) : Option PriceLevel → Option PriceLevel
  | none => acc
  | some ask => aggStepAsk acc ask

/-- The bid side of the aggregation loop over the publishers' best bids. -/
def aggFoldBid (l : List (Option PriceLevel)) : Option PriceLevel :=
  l.foldl mergeBid none

/-- The ask side of the aggregation loop over the publishers' best asks. -/
def aggFoldAsk (l : List (Option PriceLevel)) : Option PriceLevel :=
  l.foldl mergeAsk none

/-- Modelled from the claim's words: the maximum price among the present
best bids. -/
def bestBidPrice : List (Option PriceLevel) → Option Int
  | [] => none
  | none :: l => bestBidPrice l
  | some pl :: l =>
    some (match bestBidPrice l with
          | none => pl.price
          | some q => max pl.price q)

/-- Modelled from the claim's words: the minimum price among the present
best asks. -/
def bestAskPrice : List (Option PriceLevel) → Option Int
  | [] => none
  | none :: l => bestAskPrice l
  | some pl :: l =>
    some (match bestAskPrice l with
          | none => pl.price
          | some q => min pl.price q)

/-- Modelled from the claim's words: total size of the entries tied at
price `p`. -/
def tieSize (p : Int) : List (Option PriceLevel) → Nat
  | [] => 0
  | none :: l => tieSize p l
  | some pl :: l => (if pl.price = p then pl.size else 0) + tieSize p l

/-- Modelled from the claim's words: total count of the entries tied at
price `p`. -/
def tieCount (p : Int) : List (Option PriceLevel) → Nat
  | [] => 0
  | none :: l => tieCount p l
  | some pl :: l => (if pl.price = p then pl.count else 0) + tieCount p l

/-- Modelled from the claim's words: the aggregated best bid is the level
at the maximum best-bid price, its size and count the sums over exactly
the publishers tying at that price. -/
def specAggBid (l : List (Option PriceLevel)) : Option PriceLevel :=
  match bestBidPrice l with
  | none => none
  | some mp => some { price := mp, size := tieSize mp l, count := tieCount mp l }

/-- Modelled from the claim's words, symmetric to `specAggBid` with the
minimum best-ask price. -/
def specAggAsk (l : List (Option PriceLevel)) : Option PriceLevel :=
  match bestAskPrice l with
  | none => none
  | some mp => some { price := mp, size := tieSize mp l, count := tieCount mp l }

/-- The `(publisher, Book)` list of one instrument. -/
def booksOf (m : Market) (instrument_id : Nat) : List (Nat × Book) :=
  (lookupA m.books instrument_id).getD []

/-- The opposite book side. -/
def otherSide : Side → Side
  | Side.Bid => Side.Ask
  | Side.Ask => Side.Bid
  | Side.N => Side.N

/-- A resting bid order used by several witness inputs. -/
def wBid1 : MboMsg :=
  { order_id := 1, price := 100, size := 5, side := Side.Bid, action := Action.Add,
    is_tob := false }

/-- A one-order book used by several witness inputs. -/
def wBook1 : Book :=
  { orders_by_id := [(1, (Side.Bid, 100))], offers := [], bids := [(100, [wBid1])] }

/-- A Clear event used by the C6 witness. -/
def wClear : MboMsg :=
  { order_id := 0, price := 0, size := 0, side := Side.N, action := Action.Clear,
    is_tob := false }

/-- A TOB-flagged Add used by the C5 witness. -/
def wTob : MboMsg :=
  { order_id := 0, price := 200, size := 7, side := Side.Bid, action := Action.Add,
    is_tob := true }

/-- A second resting bid order behind `wBid1`, for the C10 witness. -/
def wBid2 : MboMsg :=
  { order_id := 9, price := 100, size := 3, side := Side.Bid, action := Action.Add,
    is_tob := false }

/-- Book with two orders queued at one level, for the C10 witness. -/
def wBook2 : Book :=
  { orders_by_id := [(1, (Side.Bid, 100)), (9, (Side.Bid, 100))], offers := [],
    bids := [(100, [wBid1, wBid2])] }

/-- A Modify that keeps price 100 but switches side to Ask while increasing
the size: input for the C2 counterexample. -/
def wModSwitch : MboMsg :=
  { order_id := 1, price := 100, size := 10, side := Side.Ask, action := Action.Modify,
    is_tob := false }

/-- The book the source produces from `wBook1.apply wModSwitch`. -/
def wBookSwitched : Book :=
  { orders_by_id := [(1, (Side.Bid, 100))], offers := [(100, [wModSwitch])],
    bids := [(100, [])] }

/-- A tracked-order Modify moving the price, for the C2 witness. -/
def wModMove : MboMsg :=
  { order_id := 1, price := 101, size := 5, side := Side.Bid, action := Action.Modify,
    is_tob := false }

/-- A Cancel event fully cancelling `wBid2`, for the C3 witness. -/
def wCancel : MboMsg :=
  { order_id := 9, price := 100, size := 3, side := Side.Bid, action := Action.Cancel,
    is_tob := false }

/-- The book produced by a normal bid add followed by a TOB bid add. -/
def wBookTob : Book :=
  { orders_by_id := [(1, (Side.Bid, 100))], offers := [], bids := [(200, [wTob])] }

/-- The full-channel oracle used by the C7 and C9 witnesses. -/
def wFull : Nat → TryRes := fun _ => TryRes.full

/-! ### Association-list lemmas -/

section AList

variable {α β : Type} [DecidableEq α]

theorem lookupA_insertA_self (m : List (α × β)) (k : α) (v : β) :
    lookupA (insertA m k v) k = some v := by
  induction m with
  | nil => simp [insertA, lookupA]
  | cons kv rest ih =>
    obtain ⟨k', v'⟩ := kv
    by_cases h : k' = k
    · simp [insertA, h, lookupA]
    · simp [insertA, h, lookupA, ih]

theorem lookupA_insertA_ne (m : List (α × β)) {k k' : α} (v : β) (h : k' ≠ k) :
    lookupA (insertA m k v) k' = lookupA m k' := by
  have h' : k ≠ k' := Ne.symm h
  induction m with
  | nil => simp [insertA, lookupA, h']
  | cons kv rest ih =>
    obtain ⟨k'', v''⟩ := kv
    by_cases hk : k'' = k
    · subst hk
      simp [insertA, lookupA, h']
    · simp only [insertA, if_neg hk, lookupA]
      by_cases hk' : k'' = k'
      · simp [hk']
      · simp [hk', ih]

theorem lookupA_eraseA_ne (m : List (α × β)) {k k' : α} (h : k' ≠ k) :
    lookupA (eraseA m k) k' = lookupA m k' := by
  have h' : k ≠ k' := Ne.symm h
  induction m with
  | nil => simp [eraseA]
  | cons kv rest ih =>
    obtain ⟨k'', v''⟩ := kv
    by_cases hk : k'' = k
    · subst hk
      simp [eraseA, lookupA, h']
    · simp only [eraseA, if_neg hk, lookupA]
      by_cases hk' : k'' = k'
      · simp [hk']
      · simp [hk', ih]

theorem lookupA_eq_none_iff (m : List (α × β)) (k : α) :
    lookupA m k = none ↔ k ∉ keysA m := by
  induction m with
  | nil => simp [lookupA, keysA]
  | cons kv rest ih =>
    obtain ⟨k', v'⟩ := kv
    by_cases h : k' = k
    · simp [lookupA, h, keysA]
    · have h' : k ≠ k' := Ne.symm h
      simp only [lookupA, if_neg h, keysA, List.map_cons, List.mem_cons]
      rw [ih]
      simp [keysA, h']

theorem lookupA_eraseA_self (m : List (α × β)) (k : α) (h : (keysA m).Nodup) :
    lookupA (eraseA m k) k = none := by
  induction m with
  | nil => simp [eraseA, lookupA]
  | cons kv rest ih =>
    obtain ⟨k', v'⟩ := kv
    rw [keysA, List.map_cons, List.nodup_cons] at h
    by_cases hk : k' = k
    · subst hk
      rw [eraseA, if_pos rfl]
      exact (lookupA_eq_none_iff rest k').mpr h.1
    · rw [eraseA, if_neg hk, lookupA, if_neg hk]
      exact ih h.2

theorem mem_keysA_insertA (m : List (α × β)) (k a : α) (v : β) :
    a ∈ keysA (insertA m k v) ↔ a ∈ keysA m ∨ a = k := by
  induction m with
  | nil => simp [insertA, keysA]
  | cons kv rest ih =>
    obtain ⟨k', v'⟩ := kv
    by_cases h : k' = k
    · subst h
      simp [insertA, keysA]
      tauto
    · simp only [insertA, if_neg h, keysA, List.map_cons, List.mem_cons]
      rw [keysA] at ih
      rw [ih]
      tauto

theorem nodup_keysA_insertA (m : List (α × β)) (k : α) (v : β)
    (h : (keysA m).Nodup) : (keysA (insertA m k v)).Nodup := by
  induction m with
  | nil => simp [insertA, keysA]
  | cons kv rest ih =>
    obtain ⟨k', v'⟩ := kv
    rw [keysA, List.map_cons, List.nodup_cons] at h
    by_cases hk : k' = k
    · subst hk
      rw [insertA, if_pos rfl, keysA, List.map_cons, List.nodup_cons]
      exact ⟨h.1, h.2⟩
    · rw [insertA, if_neg hk, keysA, List.map_cons, List.nodup_cons]
      refine ⟨?_, ih h.2⟩
      intro hmem
      rcases (mem_keysA_insertA rest k k' v).mp hmem with hm | he
      · exact h.1 hm
      · exact hk he

theorem mem_keysA_eraseA (m : List (α × β)) (k a : α) :
    a ∈ keysA (eraseA m k) → a ∈ keysA m := by
  induction m with
  | nil => simp [eraseA]
  | cons kv rest ih =>
    obtain ⟨k', v'⟩ := kv
    by_cases h : k' = k
    · subst h
      simp only [eraseA, if_pos rfl, keysA, List.map_cons, List.mem_cons]
      intro hm
      exact Or.inr hm
    · simp only [eraseA, if_neg h, keysA, List.map_cons, List.mem_cons]
      rintro (rfl | hm')
      · exact Or.inl rfl
      · exact Or.inr (ih hm')

theorem nodup_keysA_eraseA (m : List (α × β)) (k : α)
    (h : (keysA m).Nodup) : (keysA (eraseA m k)).Nodup := by
  induction m with
  | nil => simp [eraseA, keysA]
  | cons kv rest ih =>
    obtain ⟨k', v'⟩ := kv
    rw [keysA, List.map_cons, List.nodup_cons] at h
    by_cases hk : k' = k
    · subst hk
      rw [eraseA, if_pos rfl]
      exact h.2
    · rw [eraseA, if_neg hk, keysA, List.map_cons, List.nodup_cons]
      exact ⟨fun hm => h.1 (mem_keysA_eraseA rest k k' hm), ih h.2⟩

end AList

/-! ### Level lemmas -/

theorem countId_append (L1 L2 : Level) (oid : Nat) :
    countId (L1 ++ L2) oid = countId L1 oid + countId L2 oid := by
  induction L1 with
  | nil => simp [countId]
  | cons o rest ih => simp [countId, ih]; omega

theorem countId_eq_zero_iff (L : Level) (oid : Nat) :
    countId L oid = 0 ↔ ∀ x ∈ L, x.order_id ≠ oid := by
  induction L with
  | nil => simp [countId]
  | cons o rest ih =>
    by_cases h : o.order_id = oid
    · simp [countId, h]
    · simp [countId, h, ih]

theorem exists_of_countId_ne_zero {L : Level} {oid : Nat} (h : countId L oid ≠ 0) :
    ∃ x ∈ L, x.order_id = oid := by
  by_contra hc
  push_neg at hc
  exact h ((countId_eq_zero_iff L oid).mpr hc)

theorem splitAtId_eq {oid : Nat} {L pre post : Level} {o : MboMsg}
    (h : splitAtId oid L = some (pre, o, post)) :
    L = pre ++ o :: post ∧ o.order_id = oid ∧ ∀ x ∈ pre, x.order_id ≠ oid := by
  induction L generalizing pre with
  | nil => simp [splitAtId] at h
  | cons a rest ih =>
    by_cases ha : a.order_id = oid
    · simp only [splitAtId, if_pos ha, Option.some.injEq, Prod.mk.injEq] at h
      obtain ⟨rfl, rfl, rfl⟩ := h
      simp [ha]
    · simp only [splitAtId, if_neg ha, Option.map_eq_some', Prod.mk.injEq] at h
      obtain ⟨⟨p', o', q'⟩, hsplit, rfl, rfl, rfl⟩ := h
      obtain ⟨hL, hoid, hpre⟩ := ih hsplit
      refine ⟨by simp [hL], hoid, ?_⟩
      intro x hx
      rcases List.mem_cons.mp hx with rfl | hx'
      · exact ha
      · exact hpre x hx'

theorem splitAtId_none {oid : Nat} {L : Level} (h : splitAtId oid L = none) :
    ∀ x ∈ L, x.order_id ≠ oid := by
  induction L with
  | nil => simp
  | cons a rest ih =>
    by_cases ha : a.order_id = oid
    · simp [splitAtId, ha] at h
    · simp only [splitAtId, if_neg ha, Option.map_eq_none'] at h
      intro x hx
      rcases List.mem_cons.mp hx with rfl | hx'
      · exact ha
      · exact ih h x hx'

theorem splitAtId_isSome_of_mem {oid : Nat} {L : Level}
    (h : ∃ x ∈ L, x.order_id = oid) : (splitAtId oid L).isSome := by
  rcases hs : splitAtId oid L with _ | t
  · obtain ⟨x, hx, hid⟩ := h
    exact absurd hid (splitAtId_none hs x hx)
  · rfl

theorem takeWhile_ne_split {oid : Nat} {pre post : Level} {o : MboMsg}
    (hpre : ∀ x ∈ pre, x.order_id ≠ oid) (ho : o.order_id = oid) :
    (pre ++ o :: post).takeWhile (fun x => x.order_id != oid) = pre := by
  induction pre with
  | nil => simp [List.takeWhile, ho]
  | cons a rest ih =>
    have ha : a.order_id ≠ oid := hpre a (by simp)
    simp only [List.cons_append, List.takeWhile_cons]
    rw [if_pos (by simpa using ha)]
    rw [ih (fun x hx => hpre x (by simp [hx]))]

theorem foldl_add_size (L : Level) (a : Nat) :
    L.foldl (fun acc o => acc + o.size) a = a + (L.map MboMsg.size).sum := by
  induction L generalizing a with
  | nil => simp
  | cons o rest ih => simp [ih]; omega

/-! ### Side / `withLevels` lemmas -/

theorem orders_withLevels (b : Book) (s : Side) (m : List (Int × Level)) :
    (b.withLevels s m).orders_by_id = b.orders_by_id := by
  cases s <;> rfl

theorem levels_withLevels (b : Book) {s : Side} (hs : s ≠ Side.N)
    (m : List (Int × Level)) (s' : Side) :
    (b.withLevels s m).levels s' = if s' = s then m else b.levels s' := by
  cases s <;> cases s' <;> simp_all [Book.withLevels, Book.levels]

theorem levelAt_withLevels (b : Book) {s : Side} (hs : s ≠ Side.N)
    (m : List (Int × Level)) (s' : Side) (p : Int) :
    (b.withLevels s m).levelAt s' p =
      if s' = s then lookupA m p else b.levelAt s' p := by
  unfold Book.levelAt
  rw [levels_withLevels b hs m s']
  by_cases h : s' = s <;> simp [h]

theorem levels_setOrders (b : Book) (z : List (Nat × Side × Int)) (s : Side) :
    Book.levels { b with orders_by_id := z } s = b.levels s := by
  cases s <;> rfl

theorem levelAt_setOrders (b : Book) (z : List (Nat × Side × Int)) (s : Side) (p : Int) :
    Book.levelAt { b with orders_by_id := z } s p = b.levelAt s p := by
  unfold Book.levelAt
  rw [levels_setOrders]

theorem orders_setOrders (b : Book) (z : List (Nat × Side × Int)) :
    ({ b with orders_by_id := z } : Book).orders_by_id = z := rfl

theorem lookupA_pushLevel_self (m : List (Int × Level)) (q : Int) (e : MboMsg) :
    lookupA (pushLevel m q e) q = some ((lookupA m q).getD [] ++ [e]) := by
  unfold pushLevel
  exact lookupA_insertA_self m q _

theorem lookupA_pushLevel_ne (m : List (Int × Level)) {p q : Int} (e : MboMsg)
    (h : p ≠ q) : lookupA (pushLevel m q e) p = lookupA m p := by
  unfold pushLevel
  exact lookupA_insertA_ne m _ h


theorem otherSide_ne {s : Side} (hs : s ≠ Side.N) : otherSide s ≠ s := by
  cases s <;> simp [otherSide] at hs ⊢

/-! ### Result-shape lemmas for the `Book` operations -/

theorem orders_addShape (b : Book) (z : List (Nat × Side × Int)) (σ : Side)
    (M : List (Int × Level)) :
    (Book.withLevels { b with orders_by_id := z } σ M).orders_by_id = z := by
  rw [orders_withLevels, orders_setOrders]

theorem levels_addShape (b : Book) (z : List (Nat × Side × Int)) {σ : Side}
    (hσ : σ ≠ Side.N) (M : List (Int × Level)) (s' : Side) :
    (Book.withLevels { b with orders_by_id := z } σ M).levels s' =
      if s' = σ then M else b.levels s' := by
  rw [levels_withLevels _ hσ M s']
  by_cases h : s' = σ
  · rw [if_pos h, if_pos h]
  · rw [if_neg h, if_neg h, levels_setOrders]

theorem levelAt_addShape (b : Book) (z : List (Nat × Side × Int)) {σ : Side}
    (hσ : σ ≠ Side.N) (M : List (Int × Level)) (s' : Side) (p' : Int) :
    (Book.withLevels { b with orders_by_id := z } σ M).levelAt s' p' =
      if s' = σ then lookupA M p' else b.levelAt s' p' := by
  rw [levelAt_withLevels _ hσ M s' p']
  by_cases h : s' = σ
  · rw [if_pos h, if_pos h]
  · rw [if_neg h, if_neg h, levelAt_setOrders]

theorem orders_cancelShape (b : Book) (σ : Side) (m1 : List (Int × Level))
    (z : List (Nat × Side × Int)) :
    ({ b.withLevels σ m1 with orders_by_id := z } : Book).orders_by_id = z := rfl

theorem levels_cancelShape (b : Book) {σ : Side} (hσ : σ ≠ Side.N)
    (m1 : List (Int × Level)) (z : List (Nat × Side × Int)) (s' : Side) :
    Book.levels { b.withLevels σ m1 with orders_by_id := z } s' =
      if s' = σ then m1 else b.levels s' := by
  rw [levels_setOrders, levels_withLevels b hσ m1 s']

theorem levelAt_cancelShape (b : Book) {σ : Side} (hσ : σ ≠ Side.N)
    (m1 : List (Int × Level)) (z : List (Nat × Side × Int)) (s' : Side) (p' : Int) :
    Book.levelAt { b.withLevels σ m1 with orders_by_id := z } s' p' =
      if s' = σ then lookupA m1 p' else b.levelAt s' p' := by
  rw [levelAt_setOrders, levelAt_withLevels b hσ m1 s' p']

theorem orders_modMoveShape (b : Book) {s σ : Side} (m1 M : List (Int × Level))
    (z : List (Nat × Side × Int)) :
    (Book.withLevels { Book.withLevels b s m1 with orders_by_id := z } σ M).orders_by_id =
      z := by
  rw [orders_withLevels, orders_setOrders]

theorem levels_modMoveShape (b : Book) {s σ : Side} (hs : s ≠ Side.N) (hσ : σ ≠ Side.N)
    (m1 M : List (Int × Level)) (z : List (Nat × Side × Int)) (s' : Side) :
    (Book.withLevels { Book.withLevels b s m1 with orders_by_id := z } σ M).levels s' =
      if s' = σ then M else if s' = s then m1 else b.levels s' := by
  rw [levels_withLevels _ hσ M s']
  by_cases h : s' = σ
  · rw [if_pos h, if_pos h]
  · rw [if_neg h, if_neg h, levels_setOrders, levels_withLevels b hs m1 s']

theorem levelAt_modMoveShape (b : Book) {s σ : Side} (hs : s ≠ Side.N) (hσ : σ ≠ Side.N)
    (m1 M : List (Int × Level)) (z : List (Nat × Side × Int)) (s' : Side) (p' : Int) :
    (Book.withLevels { Book.withLevels b s m1 with orders_by_id := z } σ M).levelAt s' p' =
      if s' = σ then lookupA M p' else if s' = s then lookupA m1 p' else b.levelAt s' p' := by
  rw [levelAt_withLevels _ hσ M s' p']
  by_cases h : s' = σ
  · rw [if_pos h, if_pos h]
  · rw [if_neg h, if_neg h, levelAt_setOrders, levelAt_withLevels b hs m1 s' p']

/-! ### Invariant preservation -/

theorem inv_empty : Book.empty.inv := by
  refine ⟨⟨by simp [Book.empty, keysA], ?_⟩, ?_, ?_⟩
  · intro s
    cases s <;> simp [Book.empty, Book.levels, keysA]
  · intro oid s p h
    simp [Book.empty, lookupA] at h
  · intro s p L h
    cases s <;> simp [Book.empty, Book.levels, Book.levelAt, lookupA] at h

/-- In an `allPlaced` book, a level that is not an id's registered location
holds no order with that id. -/
theorem countId_zero_of_ne_loc {b : Book} (hpl : b.allPlaced) {oid : Nat}
    {s' : Side} {p' : Int} {L' : Level} (hlv : b.levelAt s' p' = some L')
    (h : lookupA b.orders_by_id oid ≠ some (s', p')) : countId L' oid = 0 := by
  rw [countId_eq_zero_iff]
  intro x hx hid
  exact h (hid ▸ hpl s' p' L' hlv x hx)

theorem claimInv_of_inv {b : Book} (h : b.inv) : b.claimInv := by
  obtain ⟨-, hreg, hpl⟩ := h
  intro oid s p hlk
  refine ⟨hreg oid s p hlk, ?_⟩
  intro s' p' L' hlv' hne
  refine countId_zero_of_ne_loc hpl hlv' ?_
  rw [hlk]
  intro hcon
  rw [Option.some.injEq, Prod.mk.injEq] at hcon
  exact hne ⟨hcon.1.symm, hcon.2.symm⟩

/-- `Book::add` of a non-TOB event preserves the invariant. -/
theorem inv_add (b : Book) (e : MboMsg) (b' : Book) (r : Bool)
    (hinv : b.inv) (htob : e.is_tob = false)
    (happ : b.add e = some (b', r)) : b'.inv := by
  obtain ⟨⟨hndo, hndl⟩, hreg, hpl⟩ := hinv
  by_cases hsN : e.side = Side.N
  · simp [Book.add, hsN] at happ
  by_cases hup : e.price = UNDEF_PRICE
  · simp [Book.add, hsN, htob, hup] at happ
  by_cases hlk : (lookupA b.orders_by_id e.order_id).isSome
  · simp [Book.add, hsN, htob, hup, hlk] at happ
  have hlkn : lookupA b.orders_by_id e.order_id = none := by
    cases h : lookupA b.orders_by_id e.order_id
    · rfl
    · rw [h] at hlk
      simp at hlk
  have hne_of_reg : ∀ {s2 : Side} {p2 : Int} {L2 : Level}, b.levelAt s2 p2 = some L2 →
      ∀ o' ∈ L2, o'.order_id ≠ e.order_id := by
    intro s2 p2 L2 hlv2 o' ho' hcon
    have h2 := hpl s2 p2 L2 hlv2 o' ho'
    rw [hcon, hlkn] at h2
    exact Option.noConfusion h2
  simp only [Book.add, if_neg hsN, htob, Bool.false_eq_true, if_false, if_neg hup, hlk,
    Option.some.injEq, Prod.mk.injEq] at happ
  obtain ⟨hb, -⟩ := happ
  subst hb
  refine ⟨⟨?_, ?_⟩, ?_, ?_⟩
  · rw [orders_addShape]
    exact nodup_keysA_insertA _ _ _ hndo
  · intro s'
    rw [levels_addShape b _ hsN _ s']
    by_cases hss' : s' = e.side
    · rw [if_pos hss', levels_setOrders]
      unfold pushLevel
      exact nodup_keysA_insertA _ _ _ (hndl e.side)
    · rw [if_neg hss']
      exact hndl s'
  · intro oid s' p' hlk'
    rw [orders_addShape] at hlk'
    rw [levelAt_addShape b _ hsN _ s' p']
    by_cases hoid : oid = e.order_id
    · subst hoid
      rw [lookupA_insertA_self, Option.some.injEq, Prod.mk.injEq] at hlk'
      obtain ⟨h1, h2⟩ := hlk'
      rw [if_pos h1.symm, levels_setOrders, ← h2, lookupA_pushLevel_self]
      have h0 : countId ((lookupA (b.levels e.side) e.price).getD []) e.order_id = 0 := by
        cases h0 : b.levelAt e.side e.price with
        | none =>
          rw [show lookupA (b.levels e.side) e.price = none from h0]
          simp [countId]
        | some L0 =>
          rw [show lookupA (b.levels e.side) e.price = some L0 from h0]
          simp only [Option.getD_some]
          rw [countId_eq_zero_iff]
          exact hne_of_reg h0
      refine ⟨(lookupA (b.levels e.side) e.price).getD [] ++ [e], rfl, ?_⟩
      rw [countId_append, h0]
      simp [countId]
    · rw [lookupA_insertA_ne _ _ hoid] at hlk'
      obtain ⟨L, hLlv, hLc⟩ := hreg oid s' p' hlk'
      by_cases hss' : s' = e.side
      · rw [if_pos hss', levels_setOrders]
        by_cases hpp' : p' = e.price
        · rw [hpp', lookupA_pushLevel_self]
          rw [hss', hpp'] at hLlv
          rw [show lookupA (b.levels e.side) e.price = some L from hLlv]
          refine ⟨L ++ [e], rfl, ?_⟩
          rw [countId_append, hLc]
          simp [countId, Ne.symm hoid]
        · rw [lookupA_pushLevel_ne _ e hpp']
          rw [hss'] at hLlv
          exact ⟨L, hLlv, hLc⟩
      · rw [if_neg hss']
        exact ⟨L, hLlv, hLc⟩
  · intro s' p' L' hlv' o' ho'
    rw [orders_addShape]
    rw [levelAt_addShape b _ hsN _ s' p'] at hlv'
    by_cases hss' : s' = e.side
    · rw [if_pos hss', levels_setOrders] at hlv'
      by_cases hpp' : p' = e.price
      · rw [hpp', lookupA_pushLevel_self, Option.some.injEq] at hlv'
        subst hlv'
        rcases List.mem_append.mp ho' with hin | hin
        · cases h0 : b.levelAt e.side e.price with
          | none =>
            rw [show lookupA (b.levels e.side) e.price = none from h0] at hin
            simp at hin
          | some L0 =>
            rw [show lookupA (b.levels e.side) e.price = some L0 from h0] at hin
            simp only [Option.getD_some] at hin
            have hp0 := hpl e.side e.price L0 h0 o' hin
            rw [lookupA_insertA_ne _ _ (hne_of_reg h0 o' hin), hss', hpp']
            exact hp0
        · rw [List.mem_singleton] at hin
          subst hin
          rw [lookupA_insertA_self, hss', hpp']
      · rw [lookupA_pushLevel_ne _ e hpp'] at hlv'
        rw [← hss'] at hlv'
        have hp0 := hpl s' p' L' hlv' o' ho'
        rw [lookupA_insertA_ne _ _ (hne_of_reg hlv' o' ho')]
        exact hp0
    · rw [if_neg hss'] at hlv'
      have hp0 := hpl s' p' L' hlv' o' ho'
      rw [lookupA_insertA_ne _ _ (hne_of_reg hlv' o' ho')]
      exact hp0

/-- Count of an id in a level is unchanged by replacing one order with
another carrying the same id. -/
theorem countId_replace (pre post : Level) (o o' : MboMsg) (hid : o'.order_id = o.order_id)
    (x : Nat) : countId (pre ++ o' :: post) x = countId (pre ++ o :: post) x := by
  rw [countId_append, countId_append, countId, countId, hid]

/-- Removing an order whose id differs from `x` does not change `x`'s count. -/
theorem countId_drop_mid {pre post : Level} {o : MboMsg} {x : Nat}
    (hne : o.order_id ≠ x) :
    countId (pre ++ post) x = countId (pre ++ o :: post) x := by
  rw [countId_append, countId_append, countId, if_neg hne]
  omega

/-- `Book::cancel` preserves the invariant. -/
theorem inv_cancel (b : Book) (e : MboMsg) (b' : Book) (r : Bool)
    (hinv : b.inv) (happ : b.cancel e = some (b', r)) : b'.inv := by
  obtain ⟨⟨hndo, hndl⟩, hreg, hpl⟩ := hinv
  by_cases hsN : e.side = Side.N
  · simp [Book.cancel, hsN] at happ
  cases hlv : lookupA (b.levels e.side) e.price with
  | none =>
    simp only [Book.cancel, if_neg hsN, hlv, Option.some.injEq, Prod.mk.injEq] at happ
    obtain ⟨hb, -⟩ := happ
    subst hb
    exact ⟨⟨hndo, hndl⟩, hreg, hpl⟩
  | some level =>
    cases hsp : splitAtId e.order_id level with
    | none =>
      simp only [Book.cancel, if_neg hsN, hlv, hsp, Option.some.injEq, Prod.mk.injEq] at happ
      obtain ⟨hb, -⟩ := happ
      subst hb
      exact ⟨⟨hndo, hndl⟩, hreg, hpl⟩
    | some t =>
      obtain ⟨pre, o, post⟩ := t
      obtain ⟨hLev, hois, hpre⟩ := splitAtId_eq hsp
      subst hLev
      by_cases hlt : o.size < e.size
      · simp [Book.cancel, hsN, hlv, hsp, hlt] at happ
      have homem : o ∈ pre ++ o :: post := by simp
      have hpo : lookupA b.orders_by_id e.order_id = some (e.side, e.price) := by
        have h := hpl e.side e.price _ hlv o homem
        rw [hois] at h
        exact h
      have hcnt : countId (pre ++ o :: post) e.order_id = 1 := by
        obtain ⟨L1, hL1, hc1⟩ := hreg e.order_id e.side e.price hpo
        have hL1' : L1 = pre ++ o :: post := by
          have h12 : some L1 = some (pre ++ o :: post) := by rw [← hL1]; exact hlv
          exact Option.some.inj h12
        rw [← hL1']
        exact hc1
      have hcpre : countId pre e.order_id = 0 ∧ countId post e.order_id = 0 := by
        simp only [countId_append, countId] at hcnt
        rw [if_pos hois] at hcnt
        constructor <;> omega
      have hcrem : countId (pre ++ post) e.order_id = 0 := by
        rw [countId_append, hcpre.1, hcpre.2]
      by_cases hz : o.size - e.size = 0
      · simp only [Book.cancel, if_neg hsN, hlv, hsp, if_neg hlt, if_pos hz,
          Option.some.injEq, Prod.mk.injEq] at happ
        obtain ⟨hb, -⟩ := happ
        subst hb
        refine ⟨⟨?_, ?_⟩, ?_, ?_⟩
        · rw [orders_cancelShape]
          exact nodup_keysA_eraseA _ _ hndo
        · intro s2
          rw [levels_cancelShape b hsN _ _ s2]
          by_cases hs2 : s2 = e.side
          · rw [if_pos hs2]
            by_cases hrem : pre ++ post = []
            · rw [if_pos hrem]
              exact nodup_keysA_eraseA _ _ (hndl e.side)
            · rw [if_neg hrem]
              exact nodup_keysA_insertA _ _ _ (hndl e.side)
          · rw [if_neg hs2]
            exact hndl s2
        · intro oid' s2 p2 hlk'
          rw [orders_cancelShape] at hlk'
          have hne : oid' ≠ e.order_id := by
            intro h
            rw [h, lookupA_eraseA_self _ _ hndo] at hlk'
            exact Option.noConfusion hlk'
          rw [lookupA_eraseA_ne _ hne] at hlk'
          obtain ⟨L2, hL2, hc2⟩ := hreg oid' s2 p2 hlk'
          rw [levelAt_cancelShape b hsN _ _ s2 p2]
          by_cases hs2 : s2 = e.side
          · rw [if_pos hs2]
            by_cases hp2 : p2 = e.price
            · rw [hs2, hp2] at hL2
              have hL2' : L2 = pre ++ o :: post := by
                have h12 : some L2 = some (pre ++ o :: post) := by rw [← hL2]; exact hlv
                exact Option.some.inj h12
              subst hL2'
              have hc2rem : countId (pre ++ post) oid' = 1 := by
                simp only [countId_append, countId] at hc2
                rw [if_neg (fun hcon => hne (by rw [← hcon]; exact hois))] at hc2
                rw [countId_append]
                omega
              by_cases hrem : pre ++ post = []
              · rw [hrem] at hc2rem
                simp [countId] at hc2rem
              · rw [hp2, if_neg hrem, lookupA_insertA_self]
                exact ⟨pre ++ post, rfl, hc2rem⟩
            · rw [hs2] at hL2
              by_cases hrem : pre ++ post = []
              · rw [if_pos hrem, lookupA_eraseA_ne _ hp2]
                exact ⟨L2, hL2, hc2⟩
              · rw [if_neg hrem, lookupA_insertA_ne _ _ hp2]
                exact ⟨L2, hL2, hc2⟩
          · rw [if_neg hs2]
            exact ⟨L2, hL2, hc2⟩
        · intro s2 p2 L2 hlv2 o' ho'
          rw [orders_cancelShape]
          rw [levelAt_cancelShape b hsN _ _ s2 p2] at hlv2
          by_cases hs2 : s2 = e.side
          · rw [if_pos hs2] at hlv2
            by_cases hrem : pre ++ post = []
            · rw [if_pos hrem] at hlv2
              by_cases hp2 : p2 = e.price
              · rw [hp2, lookupA_eraseA_self _ _ (hndl e.side)] at hlv2
                exact Option.noConfusion hlv2
              · rw [lookupA_eraseA_ne _ hp2] at hlv2
                have hb0 := hpl e.side p2 L2 hlv2 o' ho'
                have hne : o'.order_id ≠ e.order_id := by
                  intro h
                  rw [h, hpo] at hb0
                  rw [Option.some.injEq, Prod.mk.injEq] at hb0
                  exact hp2 hb0.2.symm
                rw [lookupA_eraseA_ne _ hne, hs2]
                exact hb0
            · rw [if_neg hrem] at hlv2
              by_cases hp2 : p2 = e.price
              · rw [hp2, lookupA_insertA_self, Option.some.injEq] at hlv2
                subst hlv2
                have ho'' : o' ∈ pre ++ o :: post := by
                  rcases List.mem_append.mp ho' with h | h
                  · exact List.mem_append.mpr (Or.inl h)
                  · exact List.mem_append.mpr (Or.inr (List.mem_cons_of_mem _ h))
                have hb0 := hpl e.side e.price _ hlv o' ho''
                have hne : o'.order_id ≠ e.order_id := by
                  intro h
                  rw [countId_eq_zero_iff] at hcrem
                  exact hcrem o' ho' h
                rw [lookupA_eraseA_ne _ hne, hs2, hp2]
                exact hb0
              · rw [lookupA_insertA_ne _ _ hp2] at hlv2
                have hb0 := hpl e.side p2 L2 hlv2 o' ho'
                have hne : o'.order_id ≠ e.order_id := by
                  intro h
                  rw [h, hpo] at hb0
                  rw [Option.some.injEq, Prod.mk.injEq] at hb0
                  exact hp2 hb0.2.symm
                rw [lookupA_eraseA_ne _ hne, hs2]
                exact hb0
          · rw [if_neg hs2] at hlv2
            have hb0 := hpl s2 p2 L2 hlv2 o' ho'
            have hne : o'.order_id ≠ e.order_id := by
              intro h
              rw [h, hpo] at hb0
              rw [Option.some.injEq, Prod.mk.injEq] at hb0
              exact hs2 hb0.1.symm
            rw [lookupA_eraseA_ne _ hne]
            exact hb0
      · simp only [Book.cancel, if_neg hsN, hlv, hsp, if_neg hlt, if_neg hz,
          Option.some.injEq, Prod.mk.injEq] at happ
        obtain ⟨hb, -⟩ := happ
        subst hb
        have hid : ({ o with size := o.size - e.size } : MboMsg).order_id = o.order_id := rfl
        refine ⟨⟨?_, ?_⟩, ?_, ?_⟩
        · rw [orders_withLevels]
          exact hndo
        · intro s2
          rw [levels_withLevels b hsN _ s2]
          by_cases hs2 : s2 = e.side
          · rw [if_pos hs2]
            exact nodup_keysA_insertA _ _ _ (hndl e.side)
          · rw [if_neg hs2]
            exact hndl s2
        · intro oid' s2 p2 hlk'
          rw [orders_withLevels] at hlk'
          obtain ⟨L2, hL2, hc2⟩ := hreg oid' s2 p2 hlk'
          rw [levelAt_withLevels b hsN _ s2 p2]
          by_cases hs2 : s2 = e.side
          · rw [if_pos hs2]
            by_cases hp2 : p2 = e.price
            · rw [hp2, lookupA_insertA_self]
              rw [hs2, hp2] at hL2
              have hL2' : L2 = pre ++ o :: post := by
                have h12 : some L2 = some (pre ++ o :: post) := by rw [← hL2]; exact hlv
                exact Option.some.inj h12
              subst hL2'
              exact ⟨_, rfl, by rw [countId_replace pre post o _ hid]; exact hc2⟩
            · rw [lookupA_insertA_ne _ _ hp2]
              rw [hs2] at hL2
              exact ⟨L2, hL2, hc2⟩
          · rw [if_neg hs2]
            exact ⟨L2, hL2, hc2⟩
        · intro s2 p2 L2 hlv2 o' ho'
          rw [orders_withLevels]
          rw [levelAt_withLevels b hsN _ s2 p2] at hlv2
          by_cases hs2 : s2 = e.side
          · rw [if_pos hs2] at hlv2
            by_cases hp2 : p2 = e.price
            · rw [hp2, lookupA_insertA_self, Option.some.injEq] at hlv2
              subst hlv2
              rw [hs2, hp2]
              rcases List.mem_append.mp ho' with h | h
              · exact hpl e.side e.price _ hlv o' (List.mem_append.mpr (Or.inl h))
              · rcases List.mem_cons.mp h with h1 | h1
                · have hido' : o'.order_id = o.order_id := by rw [h1]
                  rw [hido']
                  exact hpl e.side e.price _ hlv o homem
                · exact hpl e.side e.price _ hlv o'
                    (List.mem_append.mpr (Or.inr (List.mem_cons_of_mem _ h1)))
            · rw [lookupA_insertA_ne _ _ hp2] at hlv2
              rw [hs2]
              exact hpl e.side p2 L2 hlv2 o' ho'
          · rw [if_neg hs2] at hlv2
            exact hpl s2 p2 L2 hlv2 o' ho'

/-- `Book::modify` preserves the invariant, given no TOB flag and not the
side-switching size-increase of `Book.modifyBad`. -/
theorem inv_modify (b : Book) (e : MboMsg) (b' : Book) (r : Bool)
    (hinv : b.inv) (hact : e.action = Action.Modify) (htob : e.is_tob = false)
    (hbad : b.modifyBad e = false)
    (happ : b.modify e = some (b', r)) : b'.inv := by
  obtain ⟨⟨hndo, hndl⟩, hreg, hpl⟩ := hinv
  cases hlk : lookupA b.orders_by_id e.order_id with
  | none =>
    simp only [Book.modify, hlk] at happ
    exact inv_add b e b' r ⟨⟨hndo, hndl⟩, hreg, hpl⟩ htob happ
  | some sp =>
    obtain ⟨s, p⟩ := sp
    by_cases hsN : s = Side.N
    · obtain ⟨L, hL, -⟩ := hreg e.order_id s p hlk
      rw [hsN] at hL
      simp [Book.levelAt, Book.levels, lookupA] at hL
    obtain ⟨L, hL, hcL⟩ := hreg e.order_id s p hlk
    have hL' : lookupA (b.levels s) p = some L := hL
    have hspL : ∃ t, splitAtId e.order_id L = some t := by
      have hne0 : countId L e.order_id ≠ 0 := by rw [hcL]; omega
      have hsome := splitAtId_isSome_of_mem (exists_of_countId_ne_zero hne0)
      exact Option.isSome_iff_exists.mp hsome
    obtain ⟨⟨pre, o, post⟩, hsp⟩ := hspL
    obtain ⟨hLev, hois, hpre⟩ := splitAtId_eq hsp
    subst hLev
    have hcpre : countId pre e.order_id = 0 ∧ countId post e.order_id = 0 := by
      simp only [countId_append, countId] at hcL
      rw [if_pos hois] at hcL
      constructor <;> omega
    have hcrem : countId (pre ++ post) e.order_id = 0 := by
      rw [countId_append, hcpre.1, hcpre.2]
    have hneid : ∀ {oidx : Nat} {s3 : Side} {p3 : Int},
        lookupA b.orders_by_id oidx = some (s3, p3) → ¬(s3 = s ∧ p3 = p) →
        oidx ≠ e.order_id := by
      intro oidx s3 p3 hb0 hne3 hcc
      rw [hcc, hlk] at hb0
      rw [Option.some.injEq, Prod.mk.injEq] at hb0
      exact hne3 ⟨hb0.1.symm, hb0.2.symm⟩
    by_cases hp : p ≠ e.price
    · -- price changed: remove from the old level, push at the new location
      by_cases hes : e.side = Side.N
      · simp [Book.modify, hlk, hsN, hL', hsp, hp, hes] at happ
      simp only [Book.modify, hlk, if_neg hsN, hL', hsp, if_pos hp, if_neg hes,
        orders_withLevels, Option.some.injEq, Prod.mk.injEq] at happ
      obtain ⟨hb, -⟩ := happ
      subst hb
      set m1 := if pre ++ post = [] then eraseA (b.levels s) p
                else insertA (b.levels s) p (pre ++ post) with hm1def
      have hm1_ne : ∀ q : Int, q ≠ p → lookupA m1 q = lookupA (b.levels s) q := by
        intro q hq
        rw [hm1def]
        by_cases hrem : pre ++ post = []
        · rw [if_pos hrem, lookupA_eraseA_ne _ hq]
        · rw [if_neg hrem, lookupA_insertA_ne _ _ hq]
      have hm1_p : lookupA m1 p =
          if pre ++ post = [] then none else some (pre ++ post) := by
        rw [hm1def]
        by_cases hrem : pre ++ post = []
        · rw [if_pos hrem, if_pos hrem, lookupA_eraseA_self _ _ (hndl s)]
        · rw [if_neg hrem, if_neg hrem, lookupA_insertA_self]
      have hm1_nodup : (keysA m1).Nodup := by
        rw [hm1def]
        by_cases hrem : pre ++ post = []
        · rw [if_pos hrem]
          exact nodup_keysA_eraseA _ _ (hndl s)
        · rw [if_neg hrem]
          exact nodup_keysA_insertA _ _ _ (hndl s)
      have hT : ∀ q : Int, q ≠ p →
          lookupA (Book.levels { Book.withLevels b s m1 with
            orders_by_id := insertA b.orders_by_id e.order_id (e.side, e.price) } e.side) q =
          lookupA (b.levels e.side) q := by
        intro q hq
        rw [levels_cancelShape b hsN m1 _ e.side]
        by_cases hss : e.side = s
        · rw [if_pos hss, hm1_ne q hq, hss]
        · rw [if_neg hss]
      have hTcount : countId ((lookupA (b.levels e.side) e.price).getD []) e.order_id
          = 0 := by
        cases h0 : b.levelAt e.side e.price with
        | none =>
          rw [show lookupA (b.levels e.side) e.price = none from h0]
          simp [countId]
        | some L0 =>
          rw [show lookupA (b.levels e.side) e.price = some L0 from h0]
          simp only [Option.getD_some]
          refine countId_zero_of_ne_loc hpl h0 ?_
          rw [hlk]
          intro hcon
          rw [Option.some.injEq, Prod.mk.injEq] at hcon
          exact hp hcon.2
      refine ⟨⟨?_, ?_⟩, ?_, ?_⟩
      · rw [orders_modMoveShape]
        exact nodup_keysA_insertA _ _ _ hndo
      · intro s2
        rw [levels_modMoveShape b hsN hes m1 _ _ s2]
        by_cases hs2e : s2 = e.side
        · rw [if_pos hs2e]
          unfold pushLevel
          refine nodup_keysA_insertA _ _ _ ?_
          rw [levels_cancelShape b hsN m1 _ e.side]
          by_cases hss : e.side = s
          · rw [if_pos hss]
            exact hm1_nodup
          · rw [if_neg hss]
            exact hndl e.side
        · rw [if_neg hs2e]
          by_cases hs2s : s2 = s
          · rw [if_pos hs2s]
            exact hm1_nodup
          · rw [if_neg hs2s]
            exact hndl s2
      · intro oid' s2 p2 hlk'
        rw [orders_modMoveShape] at hlk'
        rw [levelAt_modMoveShape b hsN hes m1 _ _ s2 p2]
        by_cases hoid : oid' = e.order_id
        · subst hoid
          rw [lookupA_insertA_self, Option.some.injEq, Prod.mk.injEq] at hlk'
          obtain ⟨h1, h2⟩ := hlk'
          rw [if_pos h1.symm, ← h2, lookupA_pushLevel_self,
            hT e.price (fun hcc => hp hcc.symm)]
          refine ⟨(lookupA (b.levels e.side) e.price).getD [] ++ [e], rfl, ?_⟩
          rw [countId_append, hTcount]
          simp [countId]
        · rw [lookupA_insertA_ne _ _ hoid] at hlk'
          obtain ⟨L2, hL2, hc2⟩ := hreg oid' s2 p2 hlk'
          by_cases hs2e : s2 = e.side
          · rw [if_pos hs2e]
            by_cases hp2e : p2 = e.price
            · rw [hp2e, lookupA_pushLevel_self, hT e.price (fun hcc => hp hcc.symm)]
              rw [hs2e, hp2e] at hL2
              rw [show lookupA (b.levels e.side) e.price = some L2 from hL2]
              refine ⟨L2 ++ [e], rfl, ?_⟩
              rw [countId_append, hc2]
              have hone : countId [e] oid' = 0 := by
                rw [countId, if_neg (fun hcc => hoid hcc.symm), countId]
              rw [hone]
            · rw [lookupA_pushLevel_ne _ e hp2e]
              rw [levels_cancelShape b hsN m1 _ e.side]
              by_cases hss : e.side = s
              · rw [if_pos hss]
                by_cases hp2p : p2 = p
                · rw [hp2p, hm1_p]
                  rw [hs2e, hss, hp2p] at hL2
                  have hL2x : L2 = pre ++ o :: post := by
                    have h12 : some L2 = some (pre ++ o :: post) := by
                      rw [← hL2]; exact hL'
                    exact Option.some.inj h12
                  subst hL2x
                  have honid : o.order_id ≠ oid' := by
                    rw [hois]
                    exact fun hcc => hoid hcc.symm
                  have hc2rem : countId (pre ++ post) oid' = 1 := by
                    rw [countId_drop_mid honid]
                    exact hc2
                  by_cases hrem : pre ++ post = []
                  · rw [hrem] at hc2rem
                    simp [countId] at hc2rem
                  · rw [if_neg hrem]
                    exact ⟨pre ++ post, rfl, hc2rem⟩
                · rw [hm1_ne p2 hp2p]
                  rw [hs2e, hss] at hL2
                  exact ⟨L2, hL2, hc2⟩
              · rw [if_neg hss]
                rw [hs2e] at hL2
                exact ⟨L2, hL2, hc2⟩
          · rw [if_neg hs2e]
            by_cases hs2s : s2 = s
            · rw [if_pos hs2s]
              by_cases hp2p : p2 = p
              · rw [hp2p, hm1_p]
                rw [hs2s, hp2p] at hL2
                have hL2x : L2 = pre ++ o :: post := by
                  have h12 : some L2 = some (pre ++ o :: post) := by
                    rw [← hL2]; exact hL'
                  exact Option.some.inj h12
                subst hL2x
                have honid : o.order_id ≠ oid' := by
                  rw [hois]
                  exact fun hcc => hoid hcc.symm
                have hc2rem : countId (pre ++ post) oid' = 1 := by
                  rw [countId_drop_mid honid]
                  exact hc2
                by_cases hrem : pre ++ post = []
                · rw [hrem] at hc2rem
                  simp [countId] at hc2rem
                · rw [if_neg hrem]
                  exact ⟨pre ++ post, rfl, hc2rem⟩
              · rw [hm1_ne p2 hp2p]
                rw [hs2s] at hL2
                exact ⟨L2, hL2, hc2⟩
            · rw [if_neg hs2s]
              exact ⟨L2, hL2, hc2⟩
      · intro s2 p2 L2 hlv2 o' ho'
        rw [orders_modMoveShape]
        rw [levelAt_modMoveShape b hsN hes m1 _ _ s2 p2] at hlv2
        by_cases hs2e : s2 = e.side
        · rw [if_pos hs2e] at hlv2
          by_cases hp2e : p2 = e.price
          · rw [hp2e, lookupA_pushLevel_self,
              hT e.price (fun hcc => hp hcc.symm), Option.some.injEq] at hlv2
            subst hlv2
            rcases List.mem_append.mp ho' with hin | hin
            · cases h0 : b.levelAt e.side e.price with
              | none =>
                rw [show lookupA (b.levels e.side) e.price = none from h0] at hin
                simp at hin
              | some L0 =>
                rw [show lookupA (b.levels e.side) e.price = some L0 from h0] at hin
                simp only [Option.getD_some] at hin
                have hb0 := hpl e.side e.price L0 h0 o' hin
                have hne : o'.order_id ≠ e.order_id :=
                  hneid hb0 (fun hx => hp (hx.2.symm ▸ rfl))
                rw [lookupA_insertA_ne _ _ hne, hs2e, hp2e]
                exact hb0
            · rw [List.mem_singleton] at hin
              subst hin
              rw [lookupA_insertA_self, hs2e, hp2e]
          · rw [lookupA_pushLevel_ne _ e hp2e,
              levels_cancelShape b hsN m1 _ e.side] at hlv2
            by_cases hss : e.side = s
            · rw [if_pos hss] at hlv2
              by_cases hp2p : p2 = p
              · rw [hp2p, hm1_p] at hlv2
                by_cases hrem : pre ++ post = []
                · rw [if_pos hrem] at hlv2
                  exact Option.noConfusion hlv2
                · rw [if_neg hrem, Option.some.injEq] at hlv2
                  subst hlv2
                  have ho2 : o' ∈ pre ++ o :: post := by
                    rcases List.mem_append.mp ho' with h | h
                    · exact List.mem_append.mpr (Or.inl h)
                    · exact List.mem_append.mpr (Or.inr (List.mem_cons_of_mem _ h))
                  have hb0 := hpl s p _ hL' o' ho2
                  have hne : o'.order_id ≠ e.order_id := by
                    intro hcc
                    rw [countId_eq_zero_iff] at hcrem
                    exact hcrem o' ho' hcc
                  rw [lookupA_insertA_ne _ _ hne, hs2e, hss, hp2p]
                  exact hb0
              · rw [hm1_ne p2 hp2p] at hlv2
                have hb0 := hpl s p2 L2 hlv2 o' ho'
                have hne : o'.order_id ≠ e.order_id :=
                  hneid hb0 (fun hx => hp2p hx.2)
                rw [lookupA_insertA_ne _ _ hne, hs2e, hss]
                exact hb0
            · rw [if_neg hss] at hlv2
              have hb0 := hpl e.side p2 L2 hlv2 o' ho'
              have hne : o'.order_id ≠ e.order_id :=
                hneid hb0 (fun hx => hss hx.1)
              rw [lookupA_insertA_ne _ _ hne, hs2e]
              exact hb0
        · rw [if_neg hs2e] at hlv2
          by_cases hs2s : s2 = s
          · rw [if_pos hs2s] at hlv2
            by_cases hp2p : p2 = p
            · rw [hp2p, hm1_p] at hlv2
              by_cases hrem : pre ++ post = []
              · rw [if_pos hrem] at hlv2
                exact Option.noConfusion hlv2
              · rw [if_neg hrem, Option.some.injEq] at hlv2
                subst hlv2
                have ho2 : o' ∈ pre ++ o :: post := by
                  rcases List.mem_append.mp ho' with h | h
                  · exact List.mem_append.mpr (Or.inl h)
                  · exact List.mem_append.mpr (Or.inr (List.mem_cons_of_mem _ h))
                have hb0 := hpl s p _ hL' o' ho2
                have hne : o'.order_id ≠ e.order_id := by
                  intro hcc
                  rw [countId_eq_zero_iff] at hcrem
                  exact hcrem o' ho' hcc
                rw [lookupA_insertA_ne _ _ hne, hs2s, hp2p]
                exact hb0
            · rw [hm1_ne p2 hp2p] at hlv2
              have hb0 := hpl s p2 L2 hlv2 o' ho'
              have hne : o'.order_id ≠ e.order_id :=
                hneid hb0 (fun hx => hp2p hx.2)
              rw [lookupA_insertA_ne _ _ hne, hs2s]
              exact hb0
          · rw [if_neg hs2s] at hlv2
            have hb0 := hpl s2 p2 L2 hlv2 o' ho'
            have hne : o'.order_id ≠ e.order_id :=
              hneid hb0 (fun hx => hs2s hx.1)
            rw [lookupA_insertA_ne _ _ hne]
            exact hb0
    · -- price unchanged
      push_neg at hp
      have hesN : ∀ hss : e.side = s, ¬(e.side = Side.N) := by
        intro hss hcc
        rw [hss] at hcc
        exact hsN hcc
      by_cases hlt : o.size < e.size
      · -- size increase: `modifyBad` rules out a side switch here
        have hes : e.side = s := by
          by_contra hcon
          rw [Book.modifyBad, if_pos hact] at hbad
          simp only [hlk] at hbad
          rw [if_pos ⟨hp, fun hx => hcon hx.symm⟩] at hbad
          simp only [hL', hsp] at hbad
          rw [decide_eq_false_iff_not] at hbad
          exact hbad hlt
        have hnotne : ¬(p ≠ e.price) := fun hcc => hcc hp
        simp only [Book.modify, hlk, if_neg hsN, hL', hsp, if_neg hnotne,
          if_pos hlt, if_neg (hesN hes), Option.some.injEq, Prod.mk.injEq] at happ
        obtain ⟨hb, -⟩ := happ
        subst hb
        rw [hes, ← hp]
        refine ⟨⟨?_, ?_⟩, ?_, ?_⟩
        · rw [orders_withLevels, orders_withLevels]
          exact hndo
        · intro s2
          rw [levels_withLevels _ hsN _ s2]
          by_cases hs2 : s2 = s
          · rw [if_pos hs2]
            unfold pushLevel
            refine nodup_keysA_insertA _ _ _ ?_
            rw [levels_withLevels b hsN _ s]
            rw [if_pos rfl]
            exact nodup_keysA_insertA _ _ _ (hndl s)
          · rw [if_neg hs2, levels_withLevels b hsN _ s2, if_neg hs2]
            exact hndl s2
        · intro oid' s2 p2 hlk'
          rw [orders_withLevels, orders_withLevels] at hlk'
          obtain ⟨L2, hL2, hc2⟩ := hreg oid' s2 p2 hlk'
          rw [levelAt_withLevels _ hsN _ s2 p2]
          by_cases hs2 : s2 = s
          · rw [if_pos hs2]
            by_cases hp2 : p2 = p
            · rw [hp2, lookupA_pushLevel_self, levels_withLevels b hsN _ s, if_pos rfl,
                lookupA_insertA_self]
              rw [hs2, hp2] at hL2
              have hL2x : L2 = pre ++ o :: post := by
                have h12 : some L2 = some (pre ++ o :: post) := by
                  rw [← hL2]; exact hL'
                exact Option.some.inj h12
              subst hL2x
              refine ⟨(pre ++ post) ++ [e], rfl, ?_⟩
              by_cases hoid : oid' = e.order_id
              · subst hoid
                rw [countId_append, hcrem, countId, if_pos rfl, countId]
              · rw [countId_append]
                have honid : o.order_id ≠ oid' := by
                  rw [hois]
                  exact fun hcc => hoid hcc.symm
                have hx : countId (pre ++ post) oid' = 1 := by
                  rw [countId_drop_mid honid]
                  exact hc2
                rw [hx, countId, if_neg (fun hcc => hoid hcc.symm), countId]
            · rw [lookupA_pushLevel_ne _ e hp2, levels_withLevels b hsN _ s, if_pos rfl,
                lookupA_insertA_ne _ _ hp2]
              rw [hs2] at hL2
              exact ⟨L2, hL2, hc2⟩
          · rw [if_neg hs2, levelAt_withLevels b hsN _ s2 p2, if_neg hs2]
            exact ⟨L2, hL2, hc2⟩
        · intro s2 p2 L2 hlv2 o' ho'
          rw [orders_withLevels, orders_withLevels]
          rw [levelAt_withLevels _ hsN _ s2 p2] at hlv2
          by_cases hs2 : s2 = s
          · rw [if_pos hs2] at hlv2
            by_cases hp2 : p2 = p
            · rw [hp2, lookupA_pushLevel_self, levels_withLevels b hsN _ s, if_pos rfl,
                lookupA_insertA_self] at hlv2
              rw [Option.some.injEq] at hlv2
              subst hlv2
              simp only [Option.getD_some] at ho'
              rw [hs2, hp2]
              rcases List.mem_append.mp ho' with hin | hin
              · have ho2 : o' ∈ pre ++ o :: post := by
                  rcases List.mem_append.mp hin with h | h
                  · exact List.mem_append.mpr (Or.inl h)
                  · exact List.mem_append.mpr (Or.inr (List.mem_cons_of_mem _ h))
                exact hpl s p _ hL' o' ho2
              · rw [List.mem_singleton] at hin
                subst hin
                exact hlk
            · rw [lookupA_pushLevel_ne _ e hp2, levels_withLevels b hsN _ s, if_pos rfl,
                lookupA_insertA_ne _ _ hp2] at hlv2
              rw [hs2]
              exact hpl s p2 L2 hlv2 o' ho'
          · rw [if_neg hs2, levelAt_withLevels b hsN _ s2 p2, if_neg hs2] at hlv2
            exact hpl s2 p2 L2 hlv2 o' ho'
      · -- size unchanged or decreased: update in place
        have hnotne : ¬(p ≠ e.price) := fun hcc => hcc hp
        simp only [Book.modify, hlk, if_neg hsN, hL', hsp, if_neg hnotne,
          if_neg hlt, Option.some.injEq, Prod.mk.injEq] at happ
        obtain ⟨hb, -⟩ := happ
        subst hb
        have hid : ({ o with size := e.size } : MboMsg).order_id = o.order_id := rfl
        refine ⟨⟨?_, ?_⟩, ?_, ?_⟩
        · rw [orders_withLevels]
          exact hndo
        · intro s2
          rw [levels_withLevels b hsN _ s2]
          by_cases hs2 : s2 = s
          · rw [if_pos hs2]
            exact nodup_keysA_insertA _ _ _ (hndl s)
          · rw [if_neg hs2]
            exact hndl s2
        · intro oid' s2 p2 hlk'
          rw [orders_withLevels] at hlk'
          obtain ⟨L2, hL2, hc2⟩ := hreg oid' s2 p2 hlk'
          rw [levelAt_withLevels b hsN _ s2 p2]
          by_cases hs2 : s2 = s
          · rw [if_pos hs2]
            by_cases hp2 : p2 = p
            · rw [hp2, lookupA_insertA_self]
              rw [hs2, hp2] at hL2
              have hL2x : L2 = pre ++ o :: post := by
                have h12 : some L2 = some (pre ++ o :: post) := by
                  rw [← hL2]; exact hL'
                exact Option.some.inj h12
              subst hL2x
              exact ⟨_, rfl, by rw [countId_replace pre post o _ hid]; exact hc2⟩
            · rw [lookupA_insertA_ne _ _ hp2]
              rw [hs2] at hL2
              exact ⟨L2, hL2, hc2⟩
          · rw [if_neg hs2]
            exact ⟨L2, hL2, hc2⟩
        · intro s2 p2 L2 hlv2 o' ho'
          rw [orders_withLevels]
          rw [levelAt_withLevels b hsN _ s2 p2] at hlv2
          by_cases hs2 : s2 = s
          · rw [if_pos hs2] at hlv2
            by_cases hp2 : p2 = p
            · rw [hp2, lookupA_insertA_self, Option.some.injEq] at hlv2
              subst hlv2
              rw [hs2, hp2]
              rcases List.mem_append.mp ho' with h | h
              · exact hpl s p _ hL' o'
                  (List.mem_append.mpr (Or.inl h))
              · rcases List.mem_cons.mp h with h1 | h1
                · have hido' : o'.order_id = o.order_id := by rw [h1]
                  rw [hido']
                  exact hpl s p _ hL' o (by simp)
                · exact hpl s p _ hL' o'
                    (List.mem_append.mpr (Or.inr (List.mem_cons_of_mem _ h1)))
            · rw [lookupA_insertA_ne _ _ hp2] at hlv2
              rw [hs2]
              exact hpl s p2 L2 hlv2 o' ho'
          · rw [if_neg hs2] at hlv2
            exact hpl s2 p2 L2 hlv2 o' ho'

/-- `Book::apply` preserves the invariant for admissible events. -/
theorem inv_apply (b : Book) (e : MboMsg) (b' : Book) (r : Bool)
    (hinv : b.inv) (hok : b.stepOk e = true)
    (happ : b.apply e = some (b', r)) : b'.inv := by
  simp only [Book.stepOk, Bool.and_eq_true, Bool.not_eq_true'] at hok
  obtain ⟨htob, hbad⟩ := hok
  cases hact : e.action with
  | Modify =>
    simp only [Book.apply, hact] at happ
    exact inv_modify b e b' r hinv hact htob hbad happ
  | Trade =>
    simp only [Book.apply, hact, Option.some.injEq, Prod.mk.injEq] at happ
    obtain ⟨hb, -⟩ := happ
    subst hb
    exact hinv
  | Fill =>
    simp only [Book.apply, hact, Option.some.injEq, Prod.mk.injEq] at happ
    obtain ⟨hb, -⟩ := happ
    subst hb
    exact hinv
  | N =>
    simp only [Book.apply, hact, Option.some.injEq, Prod.mk.injEq] at happ
    obtain ⟨hb, -⟩ := happ
    subst hb
    exact hinv
  | Cancel =>
    simp only [Book.apply, hact] at happ
    exact inv_cancel b e b' r hinv happ
  | Add =>
    simp only [Book.apply, hact] at happ
    exact inv_add b e b' r hinv htob happ
  | Clear =>
    simp only [Book.apply, hact, Option.some.injEq, Prod.mk.injEq] at happ
    obtain ⟨hb, -⟩ := happ
    subst hb
    exact inv_empty

/-- The invariant holds along every admissible, panic-free run. -/
theorem inv_applySeq (es : List MboMsg) (b0 bf : Book) (h0 : b0.inv)
    (hok : seqOk b0 es = true) (happ : applySeq b0 es = some bf) : bf.inv := by
  induction es generalizing b0 with
  | nil =>
    simp only [applySeq, Option.some.injEq] at happ
    subst happ
    exact h0
  | cons e rest ih =>
    cases ha : b0.apply e with
    | none =>
      simp only [applySeq, ha] at happ
      exact Option.noConfusion happ
    | some br =>
      obtain ⟨b1, r⟩ := br
      simp only [applySeq, ha] at happ
      simp only [seqOk, ha, Bool.and_eq_true] at hok
      exact ih b1 (inv_apply b0 e b1 r h0 hok.1 ha) hok.2 happ

/-! ### Claim theorems -/



/-- C6: applying a Clear event to any book state empties both side maps and
`orders_by_id` and returns `true`; immediately afterwards `bbo()` is
`(none, none)` and `total_orders()` is `0`, regardless of the preceding
event sequence. -/
theorem clear_absorbing (b : Book) (e : MboMsg) (hact : e.action = Action.Clear) :
    b.apply e = some (Book.empty, true) ∧
    Book.empty.bbo = (none, none) ∧ Book.empty.total_orders = 0 :=
  ⟨by simp [Book.apply, hact], rfl, rfl⟩


theorem clear_absorbing_witness :
    wClear.action = Action.Clear ∧
    (wBook1.apply wClear = some (Book.empty, true) ∧
      Book.empty.bbo = (none, none) ∧ Book.empty.total_orders = 0) :=
  ⟨rfl, clear_absorbing wBook1 wClear rfl⟩

/-- C5: an Add with the TOB flag replaces the event side's entire level map:
empty if the price is `UNDEF_PRICE`, else a single level at that price
holding only the event; the other side and `orders_by_id` are untouched and
the add returns `true`. -/
theorem tob_add_spec (b : Book) (e : MboMsg) (hact : e.action = Action.Add)
    (htob : e.is_tob = true) (hside : e.side ≠ Side.N) :
    (b.apply e).map (fun br =>
        (br.2, br.1.levels e.side, br.1.levels (otherSide e.side), br.1.orders_by_id)) =
      some (true, (if e.price = UNDEF_PRICE then [] else [(e.price, [e])]),
            b.levels (otherSide e.side), b.orders_by_id) := by
  have happ : b.apply e = some
      (b.withLevels e.side (if e.price = UNDEF_PRICE then [] else [(e.price, [e])]), true) := by
    simp [Book.apply, hact, Book.add, hside, htob]
  rw [happ]
  simp only [Option.map_some', orders_withLevels]
  rw [levels_withLevels b hside _ e.side, levels_withLevels b hside _ (otherSide e.side)]
  simp [otherSide_ne hside]


theorem tob_add_spec_witness :
    wTob.action = Action.Add ∧ wTob.is_tob = true ∧ wTob.side ≠ Side.N ∧
    ((wBook1.apply wTob).map (fun br =>
        (br.2, br.1.levels wTob.side, br.1.levels (otherSide wTob.side),
         br.1.orders_by_id)) =
      some (true, (if wTob.price = UNDEF_PRICE then [] else [(wTob.price, [wTob])]),
            wBook1.levels (otherSide wTob.side), wBook1.orders_by_id)) :=
  ⟨rfl, rfl, by decide, tob_add_spec wBook1 wTob rfl rfl (by decide)⟩

/-- C10: `queue_pos` returns `none` for an untracked order id; for a tracked
id whose level exists and holds the order, it returns the sum of the sizes
of the orders strictly ahead of the first order with that id in the level's
FIFO (the cumulative size ahead, not a positional index). -/
theorem queue_pos_spec (b : Book) (oid : Nat) :
    (lookupA b.orders_by_id oid = none → b.queue_pos oid = none) ∧
    (∀ s p L pre o post,
      lookupA b.orders_by_id oid = some (s, p) →
      b.levelAt s p = some L →
      splitAtId oid L = some (pre, o, post) →
      b.queue_pos oid = some ((pre.map MboMsg.size).sum)) := by
  constructor
  · intro h
    simp [Book.queue_pos, h]
  · intro s p L pre o post hlk hlv hsp
    obtain ⟨hL, hoid, hpre⟩ := splitAtId_eq hsp
    subst hL
    have hlv' : lookupA (b.levels s) p = some (pre ++ o :: post) := hlv
    simp only [Book.queue_pos, hlk, hlv']
    rw [takeWhile_ne_split hpre hoid, foldl_add_size]
    simp



theorem queue_pos_spec_witness :
    lookupA wBook2.orders_by_id 9 = some (Side.Bid, 100) ∧
    wBook2.levelAt Side.Bid 100 = some [wBid1, wBid2] ∧
    splitAtId 9 [wBid1, wBid2] = some ([wBid1], wBid2, []) ∧
    wBook2.queue_pos 9 = some (([wBid1].map MboMsg.size).sum) :=
  ⟨by decide, by decide, by decide,
    (queue_pos_spec wBook2 9).2 Side.Bid 100 [wBid1, wBid2] [wBid1] wBid2 []
      (by decide) (by decide) (by decide)⟩

/-- C3: Cancel returns `false` and leaves the book unchanged when the level
at `(side, price)` is missing or no order with the event's id rests there;
otherwise, when the resting size is at least the event's size, the resting
size is decremented, and exactly when the residual reaches zero the order is
removed, the emptied level is dropped and the id leaves `orders_by_id`; in
the applied case Cancel returns `true`. -/
theorem cancel_spec (b : Book) (e : MboMsg) (hact : e.action = Action.Cancel)
    (hside : e.side ≠ Side.N) (hnd : (keysA (b.levels e.side)).Nodup) :
    (b.levelAt e.side e.price = none → b.apply e = some (b, false)) ∧
    (∀ L, b.levelAt e.side e.price = some L → splitAtId e.order_id L = none →
      b.apply e = some (b, false)) ∧
    (∀ L pre o post, b.levelAt e.side e.price = some L →
      splitAtId e.order_id L = some (pre, o, post) → e.size ≤ o.size →
      (e.size < o.size →
        (b.apply e).map (fun br =>
            (br.2, br.1.levelAt e.side e.price, br.1.orders_by_id)) =
          some (true, some (pre ++ { o with size := o.size - e.size } :: post),
                b.orders_by_id)) ∧
      (e.size = o.size →
        (b.apply e).map (fun br =>
            (br.2, br.1.levelAt e.side e.price, br.1.orders_by_id)) =
          some (true, (if pre ++ post = [] then none else some (pre ++ post)),
                eraseA b.orders_by_id e.order_id))) := by
  have hap : b.apply e = b.cancel e := by simp [Book.apply, hact]
  refine ⟨?_, ?_, ?_⟩
  · intro h
    have h' : lookupA (b.levels e.side) e.price = none := h
    rw [hap]
    simp [Book.cancel, hside, h']
  · intro L hlv hsp
    have hlv' : lookupA (b.levels e.side) e.price = some L := hlv
    rw [hap]
    simp [Book.cancel, hside, hlv', hsp]
  · intro L pre o post hlv hsp hle
    have hlv' : lookupA (b.levels e.side) e.price = some L := hlv
    have hnlt : ¬o.size < e.size := by omega
    constructor
    · intro hlt
      have hne : ¬(o.size - e.size = 0) := by omega
      rw [hap]
      simp only [Book.cancel, if_neg hside, hlv', hsp, if_neg hnlt, if_neg hne,
        Option.map_some']
      rw [levelAt_withLevels b hside _ e.side e.price, if_pos rfl,
        lookupA_insertA_self, orders_withLevels]
    · intro heq
      have hz : o.size - e.size = 0 := by omega
      rw [hap]
      simp only [Book.cancel, if_neg hside, hlv', hsp, if_neg hnlt, if_pos hz,
        Option.map_some']
      by_cases hrem : pre ++ post = []
      · rw [if_pos hrem, if_pos hrem]
        rw [levelAt_setOrders, levelAt_withLevels b hside _ e.side e.price, if_pos rfl,
          lookupA_eraseA_self _ _ hnd]
      · rw [if_neg hrem, if_neg hrem]
        rw [levelAt_setOrders, levelAt_withLevels b hside _ e.side e.price, if_pos rfl,
          lookupA_insertA_self]

/-- C2 (amended): behaviour of Modify on a tracked, resting order.  A price
change moves the order to the back of the level at the event's
`(side, price)` and updates `orders_by_id` (dropping the old level if it
empties); at an unchanged price, a size increase with the event naming the
order's current side re-appends at the back of the same level; at an
unchanged price a size at most the current one is updated in place, keeping
the queue position.  Every case returns `true`. -/
theorem modify_tracked (b : Book) (e : MboMsg) (s : Side) (p : Int)
    (L pre post : Level) (o : MboMsg)
    (hact : e.action = Action.Modify)
    (hlk : lookupA b.orders_by_id e.order_id = some (s, p))
    (hs : s ≠ Side.N)
    (hlv : b.levelAt s p = some L)
    (hsp : splitAtId e.order_id L = some (pre, o, post))
    (hnd : (keysA (b.levels s)).Nodup) :
    (p ≠ e.price → e.side ≠ Side.N →
      (b.apply e).map (fun br =>
          (br.2, br.1.levelAt s p, br.1.levelAt e.side e.price,
           lookupA br.1.orders_by_id e.order_id)) =
        some (true, (if pre ++ post = [] then none else some (pre ++ post)),
              some ((b.levelAt e.side e.price).getD [] ++ [e]),
              some (e.side, e.price))) ∧
    (p = e.price → e.side = s → o.size < e.size →
      (b.apply e).map (fun br =>
          (br.2, br.1.levelAt s p, lookupA br.1.orders_by_id e.order_id)) =
        some (true, some ((pre ++ post) ++ [e]), some (s, p))) ∧
    (p = e.price → e.size ≤ o.size →
      (b.apply e).map (fun br =>
          (br.2, br.1.levelAt s p, lookupA br.1.orders_by_id e.order_id)) =
        some (true, some (pre ++ { o with size := e.size } :: post), some (s, p))) := by
  have hap : b.apply e = b.modify e := by simp [Book.apply, hact]
  have hlv' : lookupA (b.levels s) p = some L := hlv
  refine ⟨?_, ?_, ?_⟩
  · intro hp hes
    rw [hap]
    simp only [Book.modify, hlk, if_neg hs, hlv', hsp, if_pos hp, if_neg hes,
      Option.map_some', Option.some.injEq, Prod.mk.injEq]
    refine ⟨trivial, ?_, ?_, ?_⟩
    · by_cases hss : e.side = s
      · subst hss
        rw [levelAt_withLevels _ hs _ _ _, if_pos rfl, lookupA_pushLevel_ne _ e hp,
          levels_setOrders, levels_withLevels b hs _ _, if_pos rfl]
        by_cases hrem : pre ++ post = []
        · rw [if_pos hrem, if_pos hrem, lookupA_eraseA_self _ _ hnd]
        · rw [if_neg hrem, if_neg hrem, lookupA_insertA_self]
      · rw [levelAt_withLevels _ hes _ _ _, if_neg (Ne.symm hss), levelAt_setOrders,
          levelAt_withLevels b hs _ _ _, if_pos rfl]
        by_cases hrem : pre ++ post = []
        · rw [if_pos hrem, if_pos hrem, lookupA_eraseA_self _ _ hnd]
        · rw [if_neg hrem, if_neg hrem, lookupA_insertA_self]
    · rw [levelAt_withLevels _ hes _ _ _, if_pos rfl, lookupA_pushLevel_self,
        levels_setOrders]
      by_cases hss : e.side = s
      · subst hss
        rw [levels_withLevels b hs _ _, if_pos rfl]
        by_cases hrem : pre ++ post = []
        · rw [if_pos hrem, lookupA_eraseA_ne _ (Ne.symm hp)]
          rfl
        · rw [if_neg hrem, lookupA_insertA_ne _ _ (Ne.symm hp)]
          rfl
      · rw [levels_withLevels b hs _ _, if_neg hss]
        rfl
    · rw [orders_withLevels, orders_setOrders, lookupA_insertA_self]
  · intro hp hss hlt
    subst hp
    subst hss
    rw [hap]
    simp only [Book.modify, hlk, if_neg hs, hlv', hsp, Option.map_some']
    rw [if_neg (by simp), if_pos hlt]
    simp only [Option.map_some', Option.some.injEq, Prod.mk.injEq]
    refine ⟨trivial, ?_, ?_⟩
    · rw [levelAt_withLevels _ hs _ _ _, if_pos rfl, lookupA_pushLevel_self,
        levels_withLevels b hs _ _, if_pos rfl, lookupA_insertA_self]
      rfl
    · rw [orders_withLevels, orders_withLevels]
      exact hlk
  · intro hp hle
    subst hp
    rw [hap]
    simp only [Book.modify, hlk, if_neg hs, hlv', hsp, Option.map_some']
    rw [if_neg (by simp), if_neg (not_lt.mpr hle)]
    simp only [Option.map_some', Option.some.injEq, Prod.mk.injEq]
    refine ⟨trivial, ?_, ?_⟩
    · rw [levelAt_withLevels _ hs _ _ _, if_pos rfl, lookupA_insertA_self]
    · rw [orders_withLevels]
      exact hlk



/-- C2 counterexample: on `wBook1` (order 1 resting on the bid side at price
100 with size 5), the same-price size-increasing Modify naming side Ask is
applied and returns `true`, but the order is **not** re-appended at the back
of its level at `(Bid, 100)` — that level is left empty and the order moves
to `(Ask, 100)` — refuting the claimed behaviour for same-price size
increases. -/
theorem modify_side_switch_counterexample :
    wBook1.apply wModSwitch = some (wBookSwitched, true) ∧
    wBookSwitched.levelAt Side.Bid 100 = some [] ∧
    countId ((wBookSwitched.levelAt Side.Bid 100).getD []) 1 = 0 ∧
    wBookSwitched.levelAt Side.Ask 100 = some [wModSwitch] ∧
    lookupA wBookSwitched.orders_by_id 1 = some (Side.Bid, 100) := by
  refine ⟨by decide, by decide, by decide, by decide, by decide⟩


theorem modify_tracked_witness :
    wModMove.action = Action.Modify ∧
    lookupA wBook1.orders_by_id wModMove.order_id = some (Side.Bid, 100) ∧
    Side.Bid ≠ Side.N ∧
    wBook1.levelAt Side.Bid 100 = some [wBid1] ∧
    splitAtId wModMove.order_id [wBid1] = some ([], wBid1, []) ∧
    (keysA (wBook1.levels Side.Bid)).Nodup ∧
    (100 : Int) ≠ wModMove.price ∧ wModMove.side ≠ Side.N ∧
    ((wBook1.apply wModMove).map (fun br =>
        (br.2, br.1.levelAt Side.Bid 100, br.1.levelAt wModMove.side wModMove.price,
         lookupA br.1.orders_by_id wModMove.order_id)) =
      some (true, (if ([] : Level) ++ [] = [] then none else some ([] ++ [])),
            some ((wBook1.levelAt wModMove.side wModMove.price).getD [] ++ [wModMove]),
            some (wModMove.side, wModMove.price))) :=
  ⟨rfl, by decide, by decide, by decide, by decide, by decide, by decide, by decide,
    (modify_tracked wBook1 wModMove Side.Bid 100 [wBid1] [] [] wBid1 rfl (by decide)
        (by decide) (by decide) (by decide) (by decide)).1 (by decide) (by decide)⟩


theorem cancel_spec_witness :
    wCancel.action = Action.Cancel ∧ wCancel.side ≠ Side.N ∧
    (keysA (wBook2.levels wCancel.side)).Nodup ∧
    wBook2.levelAt wCancel.side wCancel.price = some [wBid1, wBid2] ∧
    splitAtId wCancel.order_id [wBid1, wBid2] = some ([wBid1], wBid2, []) ∧
    wCancel.size ≤ wBid2.size ∧ wCancel.size = wBid2.size ∧
    ((wBook2.apply wCancel).map (fun br =>
        (br.2, br.1.levelAt wCancel.side wCancel.price, br.1.orders_by_id)) =
      some (true, (if [wBid1] ++ [] = ([] : Level) then none else some ([wBid1] ++ [])),
            eraseA wBook2.orders_by_id wCancel.order_id)) :=
  ⟨rfl, by decide, by decide, by decide, by decide, by decide, by decide,
    ((cancel_spec wBook2 wCancel rfl (by decide) (by decide)).2.2
        [wBid1, wBid2] [wBid1] wBid2 [] (by decide) (by decide) (by decide)).2
      (by decide)⟩


/-- C1 counterexample: after the applied events `[wBid1, wTob]` (a normal bid
add, then a TOB-flagged bid add), `orders_by_id` still maps order 1 to
`(Bid, 100)` but no level exists at `(Bid, 100)` — the TOB add cleared the
bid side without touching `orders_by_id` — so the claimed invariant fails
after an applied event. -/
theorem orders_by_id_agreement_counterexample :
    applySeq Book.empty [wBid1, wTob] = some wBookTob ∧
    lookupA wBookTob.orders_by_id 1 = some (Side.Bid, 100) ∧
    wBookTob.levelAt Side.Bid 100 = none ∧
    ¬ wBookTob.claimInv := by
  refine ⟨by decide, by decide, by decide, ?_⟩
  intro h
  obtain ⟨⟨L, hL, -⟩, -⟩ := h 1 Side.Bid 100 (by decide)
  rw [show wBookTob.levelAt Side.Bid 100 = none from by decide] at hL
  exact Option.noConfusion hL

/-- C1 (amended): after every applied event of a run in which no event
carries the TOB flag and no Modify increases a tracked order's size at its
current price while naming the opposite side (`Book.stepOk`), every entry
`oid → (s, p)` of `orders_by_id` has a level at `(s, p)` containing exactly
one order with id `oid`, and no other level on either side contains an
order with that id. -/
theorem orders_by_id_agreement (es : List MboMsg) (b : Book)
    (hok : seqOk Book.empty es = true)
    (happ : applySeq Book.empty es = some b) : b.claimInv :=
  claimInv_of_inv (inv_applySeq es Book.empty b inv_empty hok happ)

theorem orders_by_id_agreement_witness :
    seqOk Book.empty [wBid1] = true ∧
    applySeq Book.empty [wBid1] = some wBook1 ∧
    Book.claimInv wBook1 :=
  ⟨by decide, by decide, orders_by_id_agreement [wBid1] wBook1 (by decide) (by decide)⟩

/-! ### Aggregated BBO lemmas -/

theorem mergeBid_none_left (x : Option PriceLevel) : mergeBid none x = x := by
  cases x <;> rfl

theorem mergeAsk_none_left (x : Option PriceLevel) : mergeAsk none x = x := by
  cases x <;> rfl

theorem mergeBid_some_lt {a x : PriceLevel} (h : a.price < x.price) :
    mergeBid (some a) (some x) = some x := by
  simp [mergeBid, aggStepBid, h]

theorem mergeBid_some_eq {a x : PriceLevel} (h : x.price = a.price) :
    mergeBid (some a) (some x) =
      some { price := a.price, size := a.size + x.size, count := a.count + x.count } := by
  have hnl : ¬a.price < x.price := by omega
  simp [mergeBid, aggStepBid, hnl, h]

theorem mergeBid_some_gt {a x : PriceLevel} (h : x.price < a.price) :
    mergeBid (some a) (some x) = some a := by
  have hnl : ¬a.price < x.price := by omega
  have hne : ¬x.price = a.price := by omega
  simp [mergeBid, aggStepBid, hnl, hne]

theorem mergeAsk_some_lt {a x : PriceLevel} (h : x.price < a.price) :
    mergeAsk (some a) (some x) = some x := by
  simp [mergeAsk, aggStepAsk, h]

theorem mergeAsk_some_eq {a x : PriceLevel} (h : x.price = a.price) :
    mergeAsk (some a) (some x) =
      some { price := a.price, size := a.size + x.size, count := a.count + x.count } := by
  have hnl : ¬x.price < a.price := by omega
  simp [mergeAsk, aggStepAsk, hnl, h]

theorem mergeAsk_some_gt {a x : PriceLevel} (h : a.price < x.price) :
    mergeAsk (some a) (some x) = some a := by
  have hnl : ¬x.price < a.price := by omega
  have hne : ¬x.price = a.price := by omega
  simp [mergeAsk, aggStepAsk, hnl, hne]

theorem mergeBid_assoc (a b c : Option PriceLevel) :
    mergeBid (mergeBid a b) c = mergeBid a (mergeBid b c) := by
  cases b with
  | none =>
    show mergeBid a c = mergeBid a (mergeBid none c)
    rw [mergeBid_none_left]
  | some bb =>
    cases c with
    | none => rfl
    | some cc =>
      cases a with
      | none =>
        rw [mergeBid_none_left, mergeBid_none_left]
      | some aa =>
        rcases lt_trichotomy aa.price bb.price with h1 | h1 | h1
        · rw [mergeBid_some_lt h1]
          rcases lt_trichotomy bb.price cc.price with h2 | h2 | h2
          · rw [mergeBid_some_lt h2, mergeBid_some_lt (lt_trans h1 h2)]
          · rw [mergeBid_some_eq h2.symm]
            rw [mergeBid_some_lt (show aa.price <
                (⟨bb.price, bb.size + cc.size, bb.count + cc.count⟩ : PriceLevel).price
                  from h1)]
          · rw [mergeBid_some_gt h2, mergeBid_some_lt h1]
        · rw [mergeBid_some_eq h1.symm]
          rcases lt_trichotomy bb.price cc.price with h2 | h2 | h2
          · have h3 : aa.price < cc.price := by omega
            rw [mergeBid_some_lt (show
                (⟨aa.price, aa.size + bb.size, aa.count + bb.count⟩ : PriceLevel).price
                  < cc.price from h3),
              mergeBid_some_lt h2, mergeBid_some_lt h3]
          · have h3 : cc.price = aa.price := by omega
            rw [mergeBid_some_eq (show cc.price =
                (⟨aa.price, aa.size + bb.size, aa.count + bb.count⟩ : PriceLevel).price
                  from h3),
              mergeBid_some_eq h2.symm,
              mergeBid_some_eq (show
                (⟨bb.price, bb.size + cc.size, bb.count + cc.count⟩ : PriceLevel).price
                  = aa.price from h1.symm)]
            simp only [Option.some.injEq, PriceLevel.mk.injEq]
            refine ⟨trivial, Nat.add_assoc _ _ _, Nat.add_assoc _ _ _⟩
          · have h3 : cc.price < aa.price := by omega
            rw [mergeBid_some_gt (show cc.price <
                (⟨aa.price, aa.size + bb.size, aa.count + bb.count⟩ : PriceLevel).price
                  from h3),
              mergeBid_some_gt h2, mergeBid_some_eq h1.symm]
        · rw [mergeBid_some_gt h1]
          rcases lt_trichotomy bb.price cc.price with h2 | h2 | h2
          · rw [mergeBid_some_lt h2]
          · rw [mergeBid_some_eq h2.symm]
            have h3 : cc.price < aa.price := by omega
            rw [mergeBid_some_gt h3,
              mergeBid_some_gt (show
                (⟨bb.price, bb.size + cc.size, bb.count + cc.count⟩ : PriceLevel).price
                  < aa.price from h1)]
          · have h3 : cc.price < aa.price := by omega
            rw [mergeBid_some_gt h2, mergeBid_some_gt h3, mergeBid_some_gt h1]

theorem mergeAsk_assoc (a b c : Option PriceLevel) :
    mergeAsk (mergeAsk a b) c = mergeAsk a (mergeAsk b c) := by
  cases b with
  | none =>
    show mergeAsk a c = mergeAsk a (mergeAsk none c)
    rw [mergeAsk_none_left]
  | some bb =>
    cases c with
    | none => rfl
    | some cc =>
      cases a with
      | none =>
        rw [mergeAsk_none_left, mergeAsk_none_left]
      | some aa =>
        rcases lt_trichotomy bb.price aa.price with h1 | h1 | h1
        · rw [mergeAsk_some_lt h1]
          rcases lt_trichotomy cc.price bb.price with h2 | h2 | h2
          · rw [mergeAsk_some_lt h2, mergeAsk_some_lt (lt_trans h2 h1)]
          · rw [mergeAsk_some_eq h2]
            rw [mergeAsk_some_lt (show
                (⟨bb.price, bb.size + cc.size, bb.count + cc.count⟩ : PriceLevel).price
                  < aa.price from h1)]
          · rw [mergeAsk_some_gt h2, mergeAsk_some_lt h1]
        · rw [mergeAsk_some_eq h1]
          rcases lt_trichotomy cc.price bb.price with h2 | h2 | h2
          · have h3 : cc.price < aa.price := by omega
            rw [mergeAsk_some_lt (show cc.price <
                (⟨aa.price, aa.size + bb.size, aa.count + bb.count⟩ : PriceLevel).price
                  from h3),
              mergeAsk_some_lt h2, mergeAsk_some_lt h3]
          · have h3 : cc.price = aa.price := by omega
            rw [mergeAsk_some_eq (show cc.price =
                (⟨aa.price, aa.size + bb.size, aa.count + bb.count⟩ : PriceLevel).price
                  from h3),
              mergeAsk_some_eq h2,
              mergeAsk_some_eq (show
                (⟨bb.price, bb.size + cc.size, bb.count + cc.count⟩ : PriceLevel).price
                  = aa.price from h1)]
            simp only [Option.some.injEq, PriceLevel.mk.injEq]
            refine ⟨trivial, Nat.add_assoc _ _ _, Nat.add_assoc _ _ _⟩
          · have h3 : aa.price < cc.price := by omega
            rw [mergeAsk_some_gt (show
                (⟨aa.price, aa.size + bb.size, aa.count + bb.count⟩ : PriceLevel).price
                  < cc.price from h3),
              mergeAsk_some_gt h2, mergeAsk_some_eq h1]
        · rw [mergeAsk_some_gt h1]
          rcases lt_trichotomy cc.price bb.price with h2 | h2 | h2
          · rw [mergeAsk_some_lt h2]
          · rw [mergeAsk_some_eq h2]
            have h3 : aa.price < cc.price := by omega
            rw [mergeAsk_some_gt h3,
              mergeAsk_some_gt (show aa.price <
                (⟨bb.price, bb.size + cc.size, bb.count + cc.count⟩ : PriceLevel).price
                  from h1)]
          · have h3 : aa.price < cc.price := by omega
            rw [mergeAsk_some_gt h2, mergeAsk_some_gt h3, mergeAsk_some_gt h1]

theorem foldl_mergeBid (l : List (Option PriceLevel)) (a : Option PriceLevel) :
    l.foldl mergeBid a = mergeBid a (aggFoldBid l) := by
  induction l generalizing a with
  | nil => rfl
  | cons x l ih =>
    show List.foldl mergeBid (mergeBid a x) l =
      mergeBid a (List.foldl mergeBid (mergeBid none x) l)
    rw [ih (mergeBid a x), ih (mergeBid none x), mergeBid_none_left, mergeBid_assoc]

theorem foldl_mergeAsk (l : List (Option PriceLevel)) (a : Option PriceLevel) :
    l.foldl mergeAsk a = mergeAsk a (aggFoldAsk l) := by
  induction l generalizing a with
  | nil => rfl
  | cons x l ih =>
    show List.foldl mergeAsk (mergeAsk a x) l =
      mergeAsk a (List.foldl mergeAsk (mergeAsk none x) l)
    rw [ih (mergeAsk a x), ih (mergeAsk none x), mergeAsk_none_left, mergeAsk_assoc]

theorem aggFoldBid_cons (x : Option PriceLevel) (l : List (Option PriceLevel)) :
    aggFoldBid (x :: l) = mergeBid x (aggFoldBid l) := by
  show List.foldl mergeBid (mergeBid none x) l = _
  rw [foldl_mergeBid, mergeBid_none_left]

theorem aggFoldAsk_cons (x : Option PriceLevel) (l : List (Option PriceLevel)) :
    aggFoldAsk (x :: l) = mergeAsk x (aggFoldAsk l) := by
  show List.foldl mergeAsk (mergeAsk none x) l = _
  rw [foldl_mergeAsk, mergeAsk_none_left]

theorem bestBidPrice_eq_none_iff (l : List (Option PriceLevel)) :
    bestBidPrice l = none ↔ ∀ y ∈ l, y = none := by
  induction l with
  | nil => simp [bestBidPrice]
  | cons y l ih =>
    cases y with
    | none => simp [bestBidPrice, ih]
    | some pl => simp [bestBidPrice]

theorem bestAskPrice_eq_none_iff (l : List (Option PriceLevel)) :
    bestAskPrice l = none ↔ ∀ y ∈ l, y = none := by
  induction l with
  | nil => simp [bestAskPrice]
  | cons y l ih =>
    cases y with
    | none => simp [bestAskPrice, ih]
    | some pl => simp [bestAskPrice]

theorem bestBidPrice_le {l : List (Option PriceLevel)} {q : Int}
    (h : bestBidPrice l = some q) :
    ∀ x : PriceLevel, some x ∈ l → x.price ≤ q := by
  induction l generalizing q with
  | nil => simp [bestBidPrice] at h
  | cons y l ih =>
    cases y with
    | none =>
      simp only [bestBidPrice] at h
      intro x hx
      rcases List.mem_cons.mp hx with hc | hc
      · exact absurd hc.symm (by simp)
      · exact ih h x hc
    | some pl =>
      simp only [bestBidPrice, Option.some.injEq] at h
      intro x hx
      cases hq : bestBidPrice l with
      | none =>
        rw [hq] at h
        rcases List.mem_cons.mp hx with hc | hc
        · have hxp : x = pl := Option.some.inj hc
          rw [hxp]
          exact le_of_eq h
        · have hall := (bestBidPrice_eq_none_iff l).mp hq
          exact absurd (hall (some x) hc) (by simp)
      | some q2 =>
        rw [hq] at h
        rcases List.mem_cons.mp hx with hc | hc
        · have hxp : x = pl := Option.some.inj hc
          rw [hxp, ← h]
          exact le_max_left _ _
        · have := ih hq x hc
          rw [← h]
          exact le_trans this (le_max_right _ _)

theorem bestAskPrice_ge {l : List (Option PriceLevel)} {q : Int}
    (h : bestAskPrice l = some q) :
    ∀ x : PriceLevel, some x ∈ l → q ≤ x.price := by
  induction l generalizing q with
  | nil => simp [bestAskPrice] at h
  | cons y l ih =>
    cases y with
    | none =>
      simp only [bestAskPrice] at h
      intro x hx
      rcases List.mem_cons.mp hx with hc | hc
      · exact absurd hc.symm (by simp)
      · exact ih h x hc
    | some pl =>
      simp only [bestAskPrice, Option.some.injEq] at h
      intro x hx
      cases hq : bestAskPrice l with
      | none =>
        rw [hq] at h
        rcases List.mem_cons.mp hx with hc | hc
        · have hxp : x = pl := Option.some.inj hc
          rw [hxp]
          exact le_of_eq h.symm
        · have hall := (bestAskPrice_eq_none_iff l).mp hq
          exact absurd (hall (some x) hc) (by simp)
      | some q2 =>
        rw [hq] at h
        rcases List.mem_cons.mp hx with hc | hc
        · have hxp : x = pl := Option.some.inj hc
          rw [hxp, ← h]
          exact min_le_left _ _
        · have := ih hq x hc
          rw [← h]
          exact le_trans (min_le_right _ _) this

theorem tieSize_zero (l : List (Option PriceLevel)) (p' : Int)
    (h : ∀ x : PriceLevel, some x ∈ l → x.price ≠ p') : tieSize p' l = 0 := by
  induction l with
  | nil => rfl
  | cons y l ih =>
    cases y with
    | none =>
      exact ih (fun x hx => h x (List.mem_cons_of_mem _ hx))
    | some pl =>
      show (if pl.price = p' then pl.size else 0) + tieSize p' l = 0
      rw [if_neg (h pl (List.mem_cons_self _ _)),
        ih (fun x hx => h x (List.mem_cons_of_mem _ hx))]

theorem tieCount_zero (l : List (Option PriceLevel)) (p' : Int)
    (h : ∀ x : PriceLevel, some x ∈ l → x.price ≠ p') : tieCount p' l = 0 := by
  induction l with
  | nil => rfl
  | cons y l ih =>
    cases y with
    | none =>
      exact ih (fun x hx => h x (List.mem_cons_of_mem _ hx))
    | some pl =>
      show (if pl.price = p' then pl.count else 0) + tieCount p' l = 0
      rw [if_neg (h pl (List.mem_cons_self _ _)),
        ih (fun x hx => h x (List.mem_cons_of_mem _ hx))]

theorem specAggBid_cons (x : Option PriceLevel) (l : List (Option PriceLevel)) :
    specAggBid (x :: l) = mergeBid x (specAggBid l) := by
  cases x with
  | none =>
    rw [mergeBid_none_left]
    rfl
  | some pl =>
    cases hq : bestBidPrice l with
    | none =>
      have hall := (bestBidPrice_eq_none_iff l).mp hq
      have hz : tieSize pl.price l = 0 :=
        tieSize_zero l pl.price (fun x hx => absurd (hall (some x) hx) (by simp))
      have hzc : tieCount pl.price l = 0 :=
        tieCount_zero l pl.price (fun x hx => absurd (hall (some x) hx) (by simp))
      have hspec : specAggBid l = none := by simp only [specAggBid, hq]
      rw [hspec]
      simp only [specAggBid, bestBidPrice, hq, tieSize, tieCount, if_pos rfl, hz, hzc,
        mergeBid]
      simp
    | some q =>
      have hspec : specAggBid l =
          some { price := q, size := tieSize q l, count := tieCount q l } := by
        simp only [specAggBid, hq]
      rw [hspec]
      rcases lt_trichotomy pl.price q with h1 | h1 | h1
      · rw [mergeBid_some_lt (show pl.price <
            ({ price := q, size := tieSize q l, count := tieCount q l } :
              PriceLevel).price from h1)]
        simp only [specAggBid, bestBidPrice, hq]
        rw [max_eq_right (le_of_lt h1)]
        simp only [tieSize, tieCount, if_neg (show ¬pl.price = q by omega)]
        simp
      · rw [mergeBid_some_eq (show
            ({ price := q, size := tieSize q l, count := tieCount q l } :
              PriceLevel).price = pl.price from h1.symm)]
        simp only [specAggBid, bestBidPrice, hq]
        rw [h1, max_self]
        simp only [tieSize, tieCount]
        rw [if_pos h1, if_pos h1]
      · rw [mergeBid_some_gt (show
            ({ price := q, size := tieSize q l, count := tieCount q l } :
              PriceLevel).price < pl.price from h1)]
        simp only [specAggBid, bestBidPrice, hq]
        rw [max_eq_left (le_of_lt h1)]
        have hz : tieSize pl.price l = 0 :=
          tieSize_zero l pl.price (fun x hx => by
            have := bestBidPrice_le hq x hx
            omega)
        have hzc : tieCount pl.price l = 0 :=
          tieCount_zero l pl.price (fun x hx => by
            have := bestBidPrice_le hq x hx
            omega)
        simp only [tieSize, tieCount, if_pos rfl, hz, hzc]
        simp

theorem specAggAsk_cons (x : Option PriceLevel) (l : List (Option PriceLevel)) :
    specAggAsk (x :: l) = mergeAsk x (specAggAsk l) := by
  cases x with
  | none =>
    rw [mergeAsk_none_left]
    rfl
  | some pl =>
    cases hq : bestAskPrice l with
    | none =>
      have hall := (bestAskPrice_eq_none_iff l).mp hq
      have hz : tieSize pl.price l = 0 :=
        tieSize_zero l pl.price (fun x hx => absurd (hall (some x) hx) (by simp))
      have hzc : tieCount pl.price l = 0 :=
        tieCount_zero l pl.price (fun x hx => absurd (hall (some x) hx) (by simp))
      have hspec : specAggAsk l = none := by simp only [specAggAsk, hq]
      rw [hspec]
      simp only [specAggAsk, bestAskPrice, hq, tieSize, tieCount, if_pos rfl, hz, hzc,
        mergeAsk]
      simp
    | some q =>
      have hspec : specAggAsk l =
          some { price := q, size := tieSize q l, count := tieCount q l } := by
        simp only [specAggAsk, hq]
      rw [hspec]
      rcases lt_trichotomy pl.price q with h1 | h1 | h1
      · rw [mergeAsk_some_gt (show pl.price <
            ({ price := q, size := tieSize q l, count := tieCount q l } :
              PriceLevel).price from h1)]
        simp only [specAggAsk, bestAskPrice, hq]
        rw [min_eq_left (le_of_lt h1)]
        have hz : tieSize pl.price l = 0 :=
          tieSize_zero l pl.price (fun x hx => by
            have := bestAskPrice_ge hq x hx
            omega)
        have hzc : tieCount pl.price l = 0 :=
          tieCount_zero l pl.price (fun x hx => by
            have := bestAskPrice_ge hq x hx
            omega)
        simp only [tieSize, tieCount, if_pos rfl, hz, hzc]
        simp
      · rw [mergeAsk_some_eq (show
            ({ price := q, size := tieSize q l, count := tieCount q l } :
              PriceLevel).price = pl.price from h1.symm)]
        simp only [specAggAsk, bestAskPrice, hq]
        rw [h1, min_self]
        simp only [tieSize, tieCount]
        rw [if_pos h1, if_pos h1]
      · rw [mergeAsk_some_lt (show
            ({ price := q, size := tieSize q l, count := tieCount q l } :
              PriceLevel).price < pl.price from h1)]
        simp only [specAggAsk, bestAskPrice, hq]
        rw [min_eq_right (le_of_lt h1)]
        simp only [tieSize, tieCount, if_neg (show ¬pl.price = q by omega)]
        simp

theorem aggFoldBid_eq_spec (l : List (Option PriceLevel)) :
    aggFoldBid l = specAggBid l := by
  induction l with
  | nil => rfl
  | cons x l ih => rw [aggFoldBid_cons, ih, specAggBid_cons]

theorem aggFoldAsk_eq_spec (l : List (Option PriceLevel)) :
    aggFoldAsk l = specAggAsk l := by
  induction l with
  | nil => rfl
  | cons x l ih => rw [aggFoldAsk_cons, ih, specAggAsk_cons]

theorem aggBooks_eq (books : List (Nat × Book)) :
    aggBooks books =
      (aggFoldBid (books.map (fun pb => pb.2.bbo.1)),
       aggFoldAsk (books.map (fun pb => pb.2.bbo.2))) := by
  rw [aggFoldBid, aggFoldAsk, List.foldl_map, List.foldl_map]
  suffices h : ∀ acc : Option PriceLevel × Option PriceLevel,
      List.foldl
        (fun acc pb =>
          (match pb.2.bbo.1 with
           | none => acc.1
           | some bid => aggStepBid acc.1 bid,
           match pb.2.bbo.2 with
           | none => acc.2
           | some ask => aggStepAsk acc.2 ask))
        acc books =
      (List.foldl (fun a pb => mergeBid a pb.2.bbo.1) acc.1 books,
       List.foldl (fun a pb => mergeAsk a pb.2.bbo.2) acc.2 books) by
    exact h (none, none)
  intro acc
  induction books generalizing acc with
  | nil => rfl
  | cons pb rest ih =>
    rw [List.foldl_cons, List.foldl_cons, List.foldl_cons, ih]
    have hb : (match pb.2.bbo.1 with
               | none => acc.1
               | some bid => aggStepBid acc.1 bid) = mergeBid acc.1 pb.2.bbo.1 := by
      cases pb.2.bbo.1 <;> rfl
    have ha : (match pb.2.bbo.2 with
               | none => acc.2
               | some ask => aggStepAsk acc.2 ask) = mergeAsk acc.2 pb.2.bbo.2 := by
      cases pb.2.bbo.2 <;> rfl
    rw [show ((match pb.2.bbo.1 with
               | none => acc.1
               | some bid => aggStepBid acc.1 bid,
               match pb.2.bbo.2 with
               | none => acc.2
               | some ask => aggStepAsk acc.2 ask) :
          Option PriceLevel × Option PriceLevel) =
        (mergeBid acc.1 pb.2.bbo.1, mergeAsk acc.2 pb.2.bbo.2) from by rw [hb, ha]]

theorem maxEntry_eq_none_iff (m : List (Int × Level)) : maxEntry m = none ↔ m = [] := by
  cases m with
  | nil => simp [maxEntry]
  | cons x rest =>
    obtain ⟨p, l⟩ := x
    cases hr : maxEntry rest with
    | none => simp [maxEntry, hr]
    | some y =>
      simp only [maxEntry, hr]
      split <;> simp

theorem minEntry_eq_none_iff (m : List (Int × Level)) : minEntry m = none ↔ m = [] := by
  cases m with
  | nil => simp [minEntry]
  | cons x rest =>
    obtain ⟨p, l⟩ := x
    cases hr : minEntry rest with
    | none => simp [minEntry, hr]
    | some y =>
      simp only [minEntry, hr]
      split <;> simp

theorem bbo_bid_eq_none_iff (b : Book) : b.bbo.1 = none ↔ b.bids = [] := by
  show (maxEntry b.bids).map (fun x => PriceLevel.new x.1 x.2) = none ↔ _
  rw [Option.map_eq_none']
  exact maxEntry_eq_none_iff _

theorem bbo_ask_eq_none_iff (b : Book) : b.bbo.2 = none ↔ b.offers = [] := by
  show (minEntry b.offers).map (fun x => PriceLevel.new x.1 x.2) = none ↔ _
  rw [Option.map_eq_none']
  exact minEntry_eq_none_iff _

theorem specAggBid_eq_none_iff (l : List (Option PriceLevel)) :
    specAggBid l = none ↔ ∀ y ∈ l, y = none := by
  rw [← bestBidPrice_eq_none_iff]
  constructor
  · intro h
    cases hq : bestBidPrice l with
    | none => rfl
    | some q => simp [specAggBid, hq] at h
  · intro h
    simp [specAggBid, h]

theorem specAggAsk_eq_none_iff (l : List (Option PriceLevel)) :
    specAggAsk l = none ↔ ∀ y ∈ l, y = none := by
  rw [← bestAskPrice_eq_none_iff]
  constructor
  · intro h
    cases hq : bestAskPrice l with
    | none => rfl
    | some q => simp [specAggAsk, hq] at h
  · intro h
    simp [specAggAsk, h]

/-- C4: for every instrument, the aggregated best bid is the maximum over
the publishers' best-bid prices with the sizes and counts of exactly the
tying publishers summed (formalised by `specAggBid`), symmetrically the
aggregated best ask takes the minimum price, and a side is `none` exactly
when no publisher's book has any level on that side. -/
theorem aggregated_bbo_spec (m : Market) (instrument_id : Nat) :
    (m.aggregated_bbo instrument_id).1 =
      specAggBid ((booksOf m instrument_id).map (fun pb => pb.2.bbo.1)) ∧
    (m.aggregated_bbo instrument_id).2 =
      specAggAsk ((booksOf m instrument_id).map (fun pb => pb.2.bbo.2)) ∧
    ((m.aggregated_bbo instrument_id).1 = none ↔
      ∀ pb ∈ booksOf m instrument_id, (pb.2 : Book).bids = []) ∧
    ((m.aggregated_bbo instrument_id).2 = none ↔
      ∀ pb ∈ booksOf m instrument_id, (pb.2 : Book).offers = []) := by
  have hagg : m.aggregated_bbo instrument_id = aggBooks (booksOf m instrument_id) := by
    rw [Market.aggregated_bbo, booksOf]
    cases hlk : lookupA m.books instrument_id with
    | none => rfl
    | some books => rfl
  rw [hagg, aggBooks_eq]
  refine ⟨by rw [aggFoldBid_eq_spec], by rw [aggFoldAsk_eq_spec], ?_, ?_⟩
  · show aggFoldBid _ = none ↔ _
    rw [aggFoldBid_eq_spec, specAggBid_eq_none_iff]
    constructor
    · intro h pb hpb
      exact (bbo_bid_eq_none_iff pb.2).mp (h pb.2.bbo.1 (List.mem_map_of_mem _ hpb))
    · intro h y hy
      obtain ⟨pb, hpb, rfl⟩ := List.mem_map.mp hy
      exact (bbo_bid_eq_none_iff pb.2).mpr (h pb hpb)
  · show aggFoldAsk _ = none ↔ _
    rw [aggFoldAsk_eq_spec, specAggAsk_eq_none_iff]
    constructor
    · intro h pb hpb
      exact (bbo_ask_eq_none_iff pb.2).mp (h pb.2.bbo.2 (List.mem_map_of_mem _ hpb))
    · intro h y hy
      obtain ⟨pb, hpb, rfl⟩ := List.mem_map.mp hy
      exact (bbo_ask_eq_none_iff pb.2).mpr (h pb hpb)

/-! ### Ingest fan-out lemmas -/

theorem countAttempts_sendLoopGo (ch sid : Nat) (oracle : Nat → TryRes) :
    ∀ rl retries attempt,
      countAttempts (sendLoopGo ch sid oracle retries rl attempt).2 ≤ rl + 1 := by
  intro rl
  induction rl with
  | zero =>
    intro retries attempt
    cases h : oracle attempt <;> simp [sendLoopGo, h, countAttempts]
  | succ rl ih =>
    intro retries attempt
    cases h : oracle attempt with
    | ok => simp [sendLoopGo, h, countAttempts]
    | disconnected => simp [sendLoopGo, h, countAttempts]
    | full =>
      simp only [sendLoopGo, h, countAttempts]
      have := ih (retries + 1) (attempt + 1)
      omega

theorem sendLoop_allFull (ch sid : Nat) (oracle : Nat → TryRes)
    (h : ∀ k, oracle k = TryRes.full) :
    sendLoop ch sid oracle =
      (SendOutcome.dropped,
       [Effect.tryAttempt ch sid 0, Effect.sleepMs 10,
        Effect.tryAttempt ch sid 1, Effect.sleepMs 20,
        Effect.tryAttempt ch sid 2, Effect.sleepMs 40,
        Effect.tryAttempt ch sid 3]) := by
  simp only [sendLoop, sendLoopGo, h]
  norm_num

theorem sendLoopGo_disconnect (ch sid : Nat) (oracle : Nat → TryRes) :
    ∀ j retries rl attempt, j ≤ rl →
      (∀ k, k < j → oracle (attempt + k) = TryRes.full) →
      oracle (attempt + j) = TryRes.disconnected →
      (sendLoopGo ch sid oracle retries rl attempt).1 = SendOutcome.aborted := by
  intro j
  induction j with
  | zero =>
    intro retries rl attempt _ _ hd
    rw [Nat.add_zero] at hd
    cases rl <;> simp [sendLoopGo, hd]
  | succ j ih =>
    intro retries rl attempt hj hfull hd
    have h0 : oracle attempt = TryRes.full := by
      have := hfull 0 (by omega)
      rwa [Nat.add_zero] at this
    cases rl with
    | zero => omega
    | succ rl' =>
      simp only [sendLoopGo, h0]
      refine ih (retries + 1) rl' (attempt + 1) (by omega) ?_ ?_
      · intro k hk
        have := hfull (k + 1) (by omega)
        rw [show attempt + 1 + k = attempt + (k + 1) by omega]
        exact this
      · rw [show attempt + 1 + j = attempt + (j + 1) by omega]
        exact hd

/-- C7: for each applied event and each fan-out channel independently, the
producer makes at most 4 `try_send` attempts (one initial plus up to 3
retries, sleeping 10, 20 then 40 ms between attempts); if every attempt
finds the channel full the snapshot is dropped for that consumer and ingest
continues; if an attempt finds the channel disconnected the loop aborts and
`run_ingest` returns an error (stops ingest). -/
theorem ingest_backoff_spec (snapId : Nat) :
    (∀ ch oracle, countAttempts (sendLoop ch snapId oracle).2 ≤ 4) ∧
    (∀ ch oracle, (∀ k, oracle k = TryRes.full) →
      sendLoop ch snapId oracle =
        (SendOutcome.dropped,
         [Effect.tryAttempt ch snapId 0, Effect.sleepMs 10,
          Effect.tryAttempt ch snapId 1, Effect.sleepMs 20,
          Effect.tryAttempt ch snapId 2, Effect.sleepMs 40,
          Effect.tryAttempt ch snapId 3])) ∧
    (∀ o1 o2, (∀ k, o1 k = TryRes.full) → (∀ k, o2 k = TryRes.full) →
      (ingestStep true snapId o1 o2).2 = true) ∧
    (∀ ch oracle j, j ≤ 3 → (∀ k, k < j → oracle k = TryRes.full) →
      oracle j = TryRes.disconnected →
      (sendLoop ch snapId oracle).1 = SendOutcome.aborted) ∧
    (∀ o1 o2 j, j ≤ 3 → (∀ k, k < j → o1 k = TryRes.full) →
      o1 j = TryRes.disconnected →
      (ingestStep true snapId o1 o2).2 = false) := by
  have hdisc : ∀ ch (oracle : Nat → TryRes) j, j ≤ 3 →
      (∀ k, k < j → oracle k = TryRes.full) → oracle j = TryRes.disconnected →
      (sendLoop ch snapId oracle).1 = SendOutcome.aborted := by
    intro ch oracle j hj hfull hd
    refine sendLoopGo_disconnect ch snapId oracle j 0 3 0 hj ?_ ?_
    · intro k hk
      rw [Nat.zero_add]
      exact hfull k hk
    · rw [Nat.zero_add]
      exact hd
  refine ⟨?_, ?_, ?_, hdisc, ?_⟩
  · intro ch oracle
    exact countAttempts_sendLoopGo ch snapId oracle 3 0 0
  · intro ch oracle h
    exact sendLoop_allFull ch snapId oracle h
  · intro o1 o2 h1 h2
    rw [ingestStep, if_pos rfl, sendLoop_allFull 0 snapId o1 h1,
      sendLoop_allFull 1 snapId o2 h2]
    simp
  · intro o1 o2 j hj hfull hd
    rw [ingestStep, if_pos rfl, if_pos (hdisc 0 o1 j hj hfull hd)]


theorem ingest_backoff_spec_witness :
    (∀ k, wFull k = TryRes.full) ∧
    sendLoop 0 5 wFull =
      (SendOutcome.dropped,
       [Effect.tryAttempt 0 5 0, Effect.sleepMs 10,
        Effect.tryAttempt 0 5 1, Effect.sleepMs 20,
        Effect.tryAttempt 0 5 2, Effect.sleepMs 40,
        Effect.tryAttempt 0 5 3]) ∧
    (ingestStep true 5 wFull wFull).2 = true :=
  ⟨fun _ => rfl,
   (ingest_backoff_spec 5).2.1 0 wFull (fun _ => rfl),
   (ingest_backoff_spec 5).2.2.1 wFull wFull (fun _ => rfl) (fun _ => rfl)⟩

/-- C9: on every applied event the snapshot is stored into the
latest-snapshot cell before any channel send attempt, for every behaviour
of the two channels; in particular with both channels always full the
snapshot is dropped for both consumers yet the cell was updated. -/
theorem latest_store_first (snapId : Nat) (o1 o2 : Nat → TryRes) :
    (ingestStep true snapId o1 o2).1.head? = some (Effect.storeLatest snapId) ∧
    ((∀ k, o1 k = TryRes.full) → (∀ k, o2 k = TryRes.full) →
      (sendLoop 0 snapId o1).1 = SendOutcome.dropped ∧
      (sendLoop 1 snapId o2).1 = SendOutcome.dropped ∧
      Effect.storeLatest snapId ∈ (ingestStep true snapId o1 o2).1) := by
  constructor
  · by_cases h : (sendLoop 0 snapId o1).1 = SendOutcome.aborted <;>
      simp [ingestStep, h]
  · intro h1 h2
    rw [sendLoop_allFull 0 snapId o1 h1, sendLoop_allFull 1 snapId o2 h2]
    refine ⟨rfl, rfl, ?_⟩
    rw [ingestStep, if_pos rfl, sendLoop_allFull 0 snapId o1 h1,
      sendLoop_allFull 1 snapId o2 h2]
    simp

theorem latest_store_first_witness :
    (∀ k, wFull k = TryRes.full) ∧
    ((ingestStep true 7 wFull wFull).1.head? = some (Effect.storeLatest 7) ∧
      (sendLoop 0 7 wFull).1 = SendOutcome.dropped ∧
      (sendLoop 1 7 wFull).1 = SendOutcome.dropped ∧
      Effect.storeLatest 7 ∈ (ingestStep true 7 wFull wFull).1) :=
  ⟨fun _ => rfl,
   (latest_store_first 7 wFull wFull).1,
   (latest_store_first 7 wFull wFull).2 (fun _ => rfl) (fun _ => rfl)⟩

/-! ### CSV flush lemmas -/

theorem replaceQuotes_eq_doubledQuotes (cs : List Char) :
    replaceQuotes cs = doubledQuotes cs := by
  induction cs with
  | nil => rfl
  | cons c cs ih =>
    by_cases h : c = Char.ofNat 34 <;>
      simp [replaceQuotes, doubledQuotes, h, ih]

theorem rowOf_eq_specRow (s : SnapshotRecord) : rowOf s = specRow s := by
  have h0i : toString (0 : Int) = "0" := rfl
  have h0n : toString (0 : Nat) = "0" := rfl
  have hfold : ∀ X : String, "," ++ ("0," ++ ("0," ++ ("0," ++ X))) = ",0,0,0," ++ X :=
    fun _ => rfl
  have hfold2 : ∀ X : String,
      ",0,0,0," ++ ("0," ++ ("0," ++ ("0," ++ X))) = ",0,0,0,0,0,0," ++ X :=
    fun _ => rfl
  rcases hb : s.payload.bbo.best_bid with _ | b <;>
    rcases ha : s.payload.bbo.best_ask with _ | a <;>
      simp [rowOf, specRow, specCols, joinCols, escape_csv, hb, ha,
        replaceQuotes_eq_doubledQuotes, String.append_assoc, h0i, h0n, hfold,
        hfold2]

/-- C8: the flush loop writes exactly one CSV row per buffered snapshot in
buffer (FIFO) order, each row being the eleven comma-separated columns
(symbol, ts_event, best bid price/size/count, best ask price/size/count,
bid_levels, ask_levels, total_orders) with a missing side encoded as
`(0, 0, 0)` and the symbol wrapped in double quotes with internal double
quotes doubled. -/
theorem flush_copy_rows (buffer : List SnapshotRecord) :
    flushRows buffer = buffer.map specRow := by
  induction buffer with
  | nil => rfl
  | cons s rest ih => simp [flushRows, ih, rowOf_eq_specRow]

end Batonics
